import Mathlib

/-!
Verification development for the ShadowDom mutation-reconciliation engine
(src/src/clarity.ts, class ShadowDom).

Shallow embedding notes.

The TypeScript class keeps its mirror tree inside a detached HTML document:
every mirror node is a div whose id is the node's index, whose classList
carries the transient tags (cl-final, cl-new, cl-new-top, cl-moved,
cl-updated), and whose .node/.layout/.ignore expando fields carry the data.
We embed:

* the live DOM as rose trees `LTree` of node identities (Nat); a `LiveWorld`
  is the live document tree plus any detached live subtrees, snapshotted at
  batch-processing time (the engine reads live structure only through
  `addedNode.lastChild` / `previousSibling` / `nextSibling` during recursive
  subtree discovery, and the live tree does not change while a batch is
  being applied);
* a mirror (shadow) node as `SData` (index, live node id, layout, ignore
  flag, and a record of five booleans for the five class names), and the
  mirror tree as rose trees `STree`;
* the `ShadowDom` instance state as: `nextIndex`; the node->index registry
  (the NodeIndex expando of stateprovider.ts, kept here as an association
  list from live node id to index); the children of the `shadowDomRoot`
  div (`root`); the children of the `removedNodes` holding div
  (`removedKids`) together with `removedAttached`, since the holding div is
  appended to the document for the duration of `applyMutationBatch` and
  `getElementById` only finds nodes in the attached document; the
  `shadowDocument` field (index of the mirror of `document`);
  `classifyNodes`; and the list of messages reported by failed asserts.

DOM primitives are embedded as follows. `getElementById` is first-preorder
search over the attached forests. `getElementsByClassName`-driven while
loops (`getMutationSummary`, the cl-final cleanup) return nodes in document
order, and removing the relevant class from a node removes it from the live
collection; they are embedded as fueled loops that repeatedly take the
first class-bearing node in preorder and clear it, with fuel chosen large
enough (each iteration strictly decreases the number of class-bearing
nodes, which the adequacy lemmas below exploit). `insertBefore(n, sib)`
inserts before the first child with the sibling's index and appends when
the sibling is absent (the browser would throw NotFoundError if `sib` is a
non-child; no claim exercises that path). The inner discovery loop of the
new-nodes summary walks a queue of node references; since distinct queue
entries are distinct tree positions and the loop only clears the cl-new
class of the node it just appended, walking snapshot subtrees is
equivalent, and the clearing performed by one outer iteration is exactly
`clearReachT` applied at the chosen top node.
-/

namespace Clarity

/-- Identity of a live DOM node. The engine never inspects live nodes beyond
identity comparison and structure traversal, so a bare natural number
suffices. `documentId` is the identity of the `document` node, used for the
`node === document` comparison in `insertShadowNode`. -/
abbrev NodeId := Nat

def documentId : NodeId := 0

/-- A live DOM subtree: a node identity with its ordered children. -/
inductive LTree where
  | mk (id : NodeId) (kids : List LTree)

def LTree.id : LTree → NodeId
  | .mk v _ => v

def LTree.kids : LTree → List LTree
  | .mk _ k => k

/-- The live DOM at batch-processing time: the document tree plus any
detached subtrees (nodes referenced by mutation records that are no longer,
or not yet, in the document). -/
structure LiveWorld where
  doc : LTree
  detached : List LTree

/-- Modelled from the spec: layout state payloads are opaque to this engine
except for the tag, which is compared against the IgnoreTag marker of
stateprovider.ts (not under src/). Only the tag is kept. -/
structure LayoutState where
  tag : String
deriving DecidableEq, Repr

/-- Modelled from the spec: the IgnoreTag marker of stateprovider.ts (not
under src/), an opaque tag value denoting ignored content. -/
def IgnoreTag : String := "*IGR*"

/-- The five class names used on mirror nodes, as a record of booleans:
cl-final, cl-new, cl-new-top, cl-moved, cl-updated. -/
structure Classes where
  clFinal : Bool
  clNew : Bool
  clNewTop : Bool
  clMoved : Bool
  clUpdated : Bool
deriving DecidableEq, Repr

/-- The empty class list (also the result of removeAllClasses). -/
def Classes.nil : Classes := ⟨false, false, false, false, false⟩

/-- Data of one mirror (shadow) node: its id attribute (the index), its
.node reference (live node id), its .layout and .ignore fields, and its
classList. -/
structure SData where
  idx : Nat
  live : NodeId
  layout : Option LayoutState
  ignore : Bool
  cls : Classes
deriving DecidableEq, Repr

/-- A mirror subtree. -/
inductive STree where
  | mk (d : SData) (kids : List STree)

def STree.data : STree → SData
  | .mk d _ => d

def STree.kids : STree → List STree
  | .mk _ k => k

/-- Index stored on the root of a mirror subtree. -/
def STree.rootIdx (t : STree) : Nat := t.data.idx

/-- State of one ShadowDom instance. -/
structure ShadowDom where
  nextIndex : Nat
  registry : List (NodeId × Nat)
  root : List STree
  removedKids : List STree
  removedAttached : Bool
  shadowDocument : Option Nat
  classifyNodes : Bool
  reports : List String

/-- The freshly constructed ShadowDom. -/
def ShadowDom.init : ShadowDom :=
  ⟨0, [], [], [], false, none, false, []⟩

/-- Modelled from the spec: assert of utils.ts (not under src/) reports a
failed condition through the instrumentation channel and returns; the
explicit `if (!...) return` guards that follow every assert call in
shadowdom code show control flow continues past a failed assert. We record
the report message. -/
def ShadowDom.assert (s : ShadowDom) (cond : Bool) (source comment : String) : ShadowDom :=
  if cond then s else { s with reports := s.reports ++ [source ++ ": " ++ comment] }

/-- Modelled from the spec: getNodeIndex of stateprovider.ts (not under
src/) resolves a live node to its index by reading the NodeIndex expando,
returning null when absent; the expando store is our registry association
list. A null node resolves to null. -/
def lookupReg : List (NodeId × Nat) → NodeId → Option Nat
  | [], _ => none
  | (a, b) :: rest, v => if a = v then some b else lookupReg rest v

def ShadowDom.getNodeIndex (s : ShadowDom) : Option NodeId → Option Nat
  | none => none
  | some v => lookupReg s.registry v

/-- setNodeIndex (clarity.ts lines 364-372): return the existing index if
the node has one, otherwise allocate nextIndex and increment; always store
the index back on the node. -/
def ShadowDom.setNodeIndex (s : ShadowDom) (v : NodeId) : Nat × ShadowDom :=
  match lookupReg s.registry v with
  | some i => (i, { s with registry := (v, i) :: s.registry })
  | none =>
    (s.nextIndex,
     { s with registry := (v, s.nextIndex) :: s.registry,
              nextIndex := s.nextIndex + 1 })

mutual
def findT (i : Nat) : STree → Option STree
  | .mk d kids => if d.idx = i then some (.mk d kids) else findF i kids
def findF (i : Nat) : List STree → Option STree
  | [] => none
  | t :: ts =>
    match findT i t with
    | some r => some r
    | none => findF i ts
end

/-- The attached document forest: children of shadowDomRoot, then the
holding area when it is attached (matching the order in which the two divs
sit under documentElement). -/
def ShadowDom.doms (s : ShadowDom) : List STree :=
  s.root ++ (if s.removedAttached then s.removedKids else [])

/-- getShadowNode (lines 38-41): getElementById over the attached document,
null for a null index. -/
def ShadowDom.getShadowNode (s : ShadowDom) (i : Option Nat) : Option STree :=
  match i with
  | none => none
  | some i => findF i s.doms

mutual
def parentInT (i : Nat) : STree → Option SData
  | .mk d kids =>
    if kids.any (fun k => k.rootIdx = i) then some d else parentInF i kids
def parentInF (i : Nat) : List STree → Option SData
  | [] => none
  | t :: ts =>
    match parentInT i t with
    | some r => some r
    | none => parentInF i ts
end

/-- Parent lookup over one container forest: `some none` when the node with
index i is a root of the forest (its parentNode is the container div, which
carries no classes), `some (some d)` when its parent is the mirror node
with data d, `none` when i does not occur. -/
def parentOfIdxF (i : Nat) (f : List STree) : Option (Option SData) :=
  if f.any (fun t => t.rootIdx = i) then some none
  else
    match parentInF i f with
    | some d => some (some d)
    | none => none

/-- childShadowNode.parentNode for the node with index i, over the attached
document (shadowDomRoot children first, then the holding area when
attached). -/
def ShadowDom.shadowParent (s : ShadowDom) (i : Nat) : Option (Option SData) :=
  match parentOfIdxF i s.root with
  | some r => some r
  | none => if s.removedAttached then parentOfIdxF i s.removedKids else none

mutual
def updClsT (i : Nat) (f : Classes → Classes) : STree → STree
  | .mk d kids =>
    .mk (if d.idx = i then { d with cls := f d.cls } else d) (updClsF i f kids)
def updClsF (i : Nat) (f : Classes → Classes) : List STree → List STree
  | [] => []
  | t :: ts => updClsT i f t :: updClsF i f ts
end

/-- Apply a classList update to the node with index i wherever it occurs
(indices are unique in every reachable state). -/
def ShadowDom.updCls (s : ShadowDom) (i : Nat) (f : Classes → Classes) : ShadowDom :=
  { s with root := updClsF i f s.root, removedKids := updClsF i f s.removedKids }

/-- insertBefore/appendChild into a child list: insert before the first
child whose index is the anchor, append when the anchor is none or absent
(the browser would throw NotFoundError for a present-but-non-child anchor;
no claim exercises that path). -/
def insertKid (nw : STree) (anchor : Option Nat) : List STree → List STree
  | [] => [nw]
  | k :: ks =>
    if anchor = some k.rootIdx then nw :: k :: ks else k :: insertKid nw anchor ks

mutual
def insT (p : Nat) (nw : STree) (anchor : Option Nat) : STree → STree
  | .mk d kids =>
    if d.idx = p then .mk d (insertKid nw anchor kids)
    else .mk d (insF p nw anchor kids)
def insF (p : Nat) (nw : STree) (anchor : Option Nat) : List STree → List STree
  | [] => []
  | t :: ts => insT p nw anchor t :: insF p nw anchor ts
end

mutual
def detachT (i : Nat) : STree → STree × Option STree
  | .mk d kids =>
    match detachF i kids with
    | (kids2, r) => (.mk d kids2, r)
def detachF (i : Nat) : List STree → List STree × Option STree
  | [] => ([], none)
  | .mk d kids :: ts =>
    if d.idx = i then (ts, some (.mk d kids))
    else
      match detachT i (.mk d kids) with
      | (t2, some r) => (t2 :: ts, some r)
      | (_, none) =>
        match detachF i ts with
        | (ts2, r) => (.mk d kids :: ts2, r)
end

mutual
def updDataT (i : Nat) (f : SData → SData) : STree → STree
  | .mk d kids => .mk (if d.idx = i then f d else d) (updDataF i f kids)
def updDataF (i : Nat) (f : SData → SData) : List STree → List STree
  | [] => []
  | t :: ts => updDataT i f t :: updDataF i f ts
end

/-- Apply a data update to the node with index i wherever it occurs in
either forest (indices are unique in every reachable state). -/
def ShadowDom.updData (s : ShadowDom) (i : Nat) (f : SData → SData) : ShadowDom :=
  { s with root := updDataF i f s.root, removedKids := updDataF i f s.removedKids }

def ShadowDom.updClsAt (s : ShadowDom) (i : Nat) (f : Classes → Classes) : ShadowDom :=
  s.updData i (fun d => { d with cls := f d.cls })

/-- insertShadowNode (lines 43-77). Returns the new node's index (the
returned shadow node reference), or none when the parent was missing and
the insert was abandoned after the assert; note the registry update by
setNodeIndex has happened by then, and a document insert records the
shadowDocument reference before the parent check. The parent is the
shadowDomRoot container div itself when the inserted node is the live
document (modelled as `some none`). -/
def ShadowDom.insertShadowNode (s : ShadowDom) (v : NodeId)
    (parentIndex nextSiblingIndex : Option Nat) (layout : Option LayoutState) :
    Option Nat × ShadowDom :=
  let isDocument := v = documentId
  let (index, s1) := s.setNodeIndex v
  let parent : Option (Option STree) :=
    if isDocument then some none
    else
      match s1.getShadowNode parentIndex with
      | some t => some (some t)
      | none => none
  let nextSibling := s1.getShadowNode nextSiblingIndex
  let ignore0 : Bool :=
    if isDocument then false
    else
      match parent with
      | some (some t) => t.data.ignore
      | _ => false
  let d : SData :=
    { idx := index, live := v, layout := layout,
      ignore := (match layout with
                 | some l => l.tag = IgnoreTag
                 | none => false) || ignore0,
      cls := Classes.nil }
  let s2 := if isDocument then { s1 with shadowDocument := some index } else s1
  let s3 := s2.assert parent.isSome "insertShadowNode" "parent is missing"
  match parent with
  | none => (none, s3)
  | some pref =>
    let parentIsNew : Bool :=
      match pref with
      | none => false
      | some t => t.data.cls.clNew
    let cls2 : Classes :=
      if s3.classifyNodes then { Classes.nil with clNew := true, clNewTop := !parentIsNew }
      else Classes.nil
    let nw : STree := .mk { d with cls := cls2 } []
    let anchor : Option Nat := if nextSibling.isSome then nextSiblingIndex else none
    match pref with
    | none => (some index, { s3 with root := insertKid nw anchor s3.root })
    | some t =>
      (some index,
       { s3 with root := insF t.rootIdx nw anchor s3.root,
                 removedKids := insF t.rootIdx nw anchor s3.removedKids })

/-- Detach the subtree rooted at index i from its current position (in the
attached document) and insert it under the node with index p, before the
anchor. Shared surgery for insertBefore/appendChild applied to an existing
node in moveShadowNode. -/
def ShadowDom.moveSurgery (s : ShadowDom) (i p : Nat) (anchor : Option Nat) : ShadowDom :=
  match detachF i s.root with
  | (root2, some sub) =>
    { s with root := insF p sub anchor root2,
             removedKids := insF p sub anchor s.removedKids }
  | (_, none) =>
    if s.removedAttached then
      match detachF i s.removedKids with
      | (rk2, some sub) =>
        { s with root := insF p sub anchor s.root,
                 removedKids := insF p sub anchor rk2 }
      | (_, none) => s
    else s

/-- moveShadowNode (lines 79-105). -/
def ShadowDom.moveShadowNode (s : ShadowDom)
    (index newParentIndex newNextSiblingIndex : Option Nat) : ShadowDom :=
  let shadowNode := s.getShadowNode index
  let parent := s.getShadowNode newParentIndex
  let nextSibling := s.getShadowNode newNextSiblingIndex
  let s1 := s.assert parent.isSome "moveShadowNode" "parent is missing"
  let s2 := s1.assert shadowNode.isSome "moveShadowNode" "shadowNode is missing"
  match parent, shadowNode with
  | some p, some sn =>
    let i := sn.rootIdx
    let s3 :=
      if s2.classifyNodes then
        s2.updClsAt i (fun c =>
          if p.data.cls.clNew then { c with clMoved := true, clNewTop := false }
          else { c with clMoved := true, clNewTop := true })
      else s2
    let anchor : Option Nat := if nextSibling.isSome then newNextSiblingIndex else none
    s3.moveSurgery i p.rootIdx anchor
  | _, _ => s2

/-- updateShadowNode (lines 107-125). -/
def ShadowDom.updateShadowNode (s : ShadowDom) (index : Option Nat)
    (newLayout : Option LayoutState) : ShadowDom :=
  let shadowNode := s.getShadowNode index
  let s1 := s.assert shadowNode.isSome "updateShadowNode" "shadowNode is missing"
  match shadowNode with
  | none => s1
  | some sn =>
    let i := sn.rootIdx
    let s2 :=
      match newLayout with
      | some l => s1.updData i (fun d => { d with layout := some l, ignore := l.tag = IgnoreTag })
      | none => s1
    if s2.classifyNodes then s2.updClsAt i (fun c => { c with clUpdated := true }) else s2

/-- removeShadowNode (lines 127-136): appendChild onto the removedNodes
holding div, preserving the subtree. -/
def ShadowDom.removeShadowNode (s : ShadowDom) (index : Option Nat) : ShadowDom :=
  let shadowNode := s.getShadowNode index
  let s1 := s.assert shadowNode.isSome "removeShadowNode" "shadowNode is missing"
  match shadowNode with
  | none => s1
  | some sn =>
    let i := sn.rootIdx
    match detachF i s1.root with
    | (root2, some sub) => { s1 with root := root2, removedKids := s1.removedKids ++ [sub] }
    | (_, none) =>
      if s1.removedAttached then
        match detachF i s1.removedKids with
        | (rk2, some sub) => { s1 with removedKids := rk2 ++ [sub] }
        | (_, none) => s1
      else s1

/-- shouldProcessChildListMutation (lines 351-362). -/
def ShadowDom.shouldProcessChildListMutation (s : ShadowDom) (child parent : NodeId) : Bool :=
  let childNodeIndex := s.getNodeIndex (some child)
  let parentIndex := s.getNodeIndex (some parent)
  match childNodeIndex with
  | none =>
    match s.getShadowNode parentIndex with
    | some t => !t.data.cls.clFinal
    | none => false
  | some ci =>
    match s.shadowParent ci with
    | some none => true
    | some (some d) => !d.cls.clFinal
    | none => false

mutual
def findLT (v : NodeId) : LTree → Option LTree
  | .mk w kids => if w = v then some (.mk w kids) else findLF v kids
def findLF (v : NodeId) : List LTree → Option LTree
  | [] => none
  | t :: ts =>
    match findLT v t with
    | some r => some r
    | none => findLF v ts
end

/-- Current live subtree of the node with identity v: searched in the
document and among detached subtrees; a node absent from the snapshot is a
bare live node without children. -/
def LiveWorld.subtreeOf (w : LiveWorld) (v : NodeId) : LTree :=
  (findLF v (w.doc :: w.detached)).getD (.mk v [])

mutual
/-- applyInsert (lines 300-323); the previousSibling argument of the
source is never read and is omitted. The live subtree of the added node is
passed in place of the node reference: recursive discovery reads the added
node's current live children, which are exactly the subtree's children
since the live tree does not change during batch processing. -/
def ShadowDom.applyInsert (s : ShadowDom) (sub : LTree) (parent : NodeId)
    (nextSibling : Option NodeId) (force : Bool) : ShadowDom :=
  match sub with
  | .mk v kids =>
    let addedNodeIndex := s.getNodeIndex (some v)
    let parentIndex := s.getNodeIndex (some parent)
    let nextSiblingIndex := s.getNodeIndex nextSibling
    let validMutation := s.shouldProcessChildListMutation v parent || force
    if validMutation then
      match addedNodeIndex with
      | none =>
        let (newIdx, s1) := s.insertShadowNode v parentIndex nextSiblingIndex none
        let s2 :=
          match newIdx with
          | some i => s1.updClsAt i (fun c => { c with clFinal := true })
          | none => s1
        ShadowDom.applyInsertKids s2 kids v
      | some i => s.moveShadowNode (some i) parentIndex nextSiblingIndex
    else s

/-- The children loop of applyInsert (lines 314-318): live children are
processed from last to first, each anchored to its live next sibling. -/
def ShadowDom.applyInsertKids (s : ShadowDom) (kids : List LTree) (parent : NodeId) : ShadowDom :=
  match kids with
  | [] => s
  | [c] => ShadowDom.applyInsert s c parent none true
  | c :: c2 :: rest =>
    let s1 := ShadowDom.applyInsertKids s (c2 :: rest) parent
    ShadowDom.applyInsert s1 c parent (some c2.id) true
end

/-- applyRemove (lines 325-334). -/
def ShadowDom.applyRemove (s : ShadowDom) (removedNode parent : NodeId) : ShadowDom :=
  match s.getNodeIndex (some removedNode) with
  | none => s
  | some i =>
    if s.shouldProcessChildListMutation removedNode parent
    then s.removeShadowNode (some i)
    else s

/-- applyUpdate (lines 336-341); the attribute name and old value are
ignored by the source body. -/
def ShadowDom.applyUpdate (s : ShadowDom) (updatedNode : NodeId) : ShadowDom :=
  match s.getNodeIndex (some updatedNode) with
  | none => s
  | some i => s.updateShadowNode (some i) none

/-- One MutationRecord: attribute/characterData records carry their target
(attributeName and oldValue are passed to applyUpdate and ignored there);
childList records carry the target, ordered added and removed node lists
and the two positional anchors. -/
inductive MRecord where
  | attributes (target : NodeId) (attributeName oldValue : Option String)
  | characterData (target : NodeId) (oldValue : Option String)
  | childList (target : NodeId) (addedNodes removedNodes : List NodeId)
      (previousSibling nextSibling : Option NodeId)

/-- The added-nodes loop of applyMutationBatch (lines 156-167): elements
are processed from last to first; element j is anchored to element j+1,
the last element to the record's nextSibling. -/
def ShadowDom.processAdded (s : ShadowDom) (w : LiveWorld) (target : NodeId)
    (added : List NodeId) (recNext : Option NodeId) : ShadowDom :=
  match added with
  | [] => s
  | [a] => ShadowDom.applyInsert s (w.subtreeOf a) target recNext false
  | a :: b :: rest =>
    let s1 := ShadowDom.processAdded s w target (b :: rest) recNext
    ShadowDom.applyInsert s1 (w.subtreeOf a) target (some b) false

/-- The removed-nodes loop of applyMutationBatch (lines 170-173). -/
def ShadowDom.processRemoved (s : ShadowDom) (target : NodeId) (removed : List NodeId) : ShadowDom :=
  match removed with
  | [] => s
  | r :: rest => ShadowDom.processRemoved (s.applyRemove r target) target rest

/-- One iteration of the record loop of applyMutationBatch (lines 143-178). -/
def ShadowDom.applyRecord (s : ShadowDom) (w : LiveWorld) : MRecord → ShadowDom
  | .attributes target _ _ => s.applyUpdate target
  | .characterData target _ => s.applyUpdate target
  | .childList target added removed _prev next =>
    let s1 := ShadowDom.processAdded s w target added next
    s1.processRemoved target removed

def ShadowDom.processRecords (s : ShadowDom) (w : LiveWorld) : List MRecord → ShadowDom
  | [] => s
  | m :: ms => ShadowDom.processRecords (s.applyRecord w m) w ms

mutual
def sizeT : STree → Nat
  | .mk _ kids => 1 + sizeF kids
def sizeF : List STree → Nat
  | [] => 0
  | t :: ts => sizeT t + sizeF ts
end

mutual
def countPT (p : SData → Bool) : STree → Nat
  | .mk d kids => (if p d then 1 else 0) + countPF p kids
def countPF (p : SData → Bool) : List STree → Nat
  | [] => 0
  | t :: ts => countPT p t + countPF p ts
end

mutual
def hasPT (p : SData → Bool) : STree → Bool
  | .mk d kids => p d || hasPF p kids
def hasPF (p : SData → Bool) : List STree → Bool
  | [] => false
  | t :: ts => hasPT p t || hasPF p ts
end

/-- The inner discovery loop of the new-nodes summary (lines 260-272): a
queue of node references; the head is appended and its cl-new cleared when
it still has cl-new, in which case its children are pushed right to left.
Fuel is threaded explicitly; each step strictly decreases the total node
count of the queue, so `sizeF q` steps always suffice. -/
def bfsNew : Nat → List STree → List SData
  | 0, _ => []
  | _, [] => []
  | fuel + 1, .mk d kids :: q =>
    if d.cls.clNew then d :: bfsNew fuel (q ++ kids.reverse)
    else bfsNew fuel q

mutual
def findFirstNewT : STree → Option STree
  | .mk d kids => if d.cls.clNew then some (.mk d kids) else findFirstNewF kids
def findFirstNewF : List STree → Option STree
  | [] => none
  | t :: ts =>
    match findFirstNewT t with
    | some r => some r
    | none => findFirstNewF ts
end

mutual
/-- Net cl-new clearing performed by one inner discovery walk from a top
node: cl-new is cleared along every path of cl-new nodes from the root,
matching the loop's rule that children are enqueued only when their parent
was appended. -/
def clearReachT : STree → STree
  | .mk d kids =>
    if d.cls.clNew then .mk { d with cls := { d.cls with clNew := false } } (clearReachF kids)
    else .mk d kids
def clearReachF : List STree → List STree
  | [] => []
  | t :: ts => clearReachT t :: clearReachF ts
end

mutual
/-- Replace the first preorder cl-new subtree by its clearReachT image:
the document-tree effect of one outer iteration of the new-nodes loop. -/
def clearFirstNewT : STree → STree
  | .mk d kids => if d.cls.clNew then clearReachT (.mk d kids) else .mk d (clearFirstNewF kids)
def clearFirstNewF : List STree → List STree
  | [] => []
  | t :: ts =>
    if hasPT (fun d => d.cls.clNew) t then clearFirstNewT t :: ts
    else t :: clearFirstNewF ts
end

mutual
def findFirstPT (p : SData → Bool) : STree → Option SData
  | .mk d kids => if p d then some d else findFirstPF p kids
def findFirstPF (p : SData → Bool) : List STree → Option SData
  | [] => none
  | t :: ts =>
    match findFirstPT p t with
    | some r => some r
    | none => findFirstPF p ts
end

mutual
def clearAtFirstPT (p : SData → Bool) (f : SData → SData) : STree → STree
  | .mk d kids => if p d then .mk (f d) kids else .mk d (clearAtFirstPF p f kids)
def clearAtFirstPF (p : SData → Bool) (f : SData → SData) : List STree → List STree
  | [] => []
  | t :: ts =>
    if hasPT p t then clearAtFirstPT p f t :: ts
    else t :: clearAtFirstPF p f ts
end

/-- The outer new-nodes loop of getMutationSummary (lines 257-273): while
some document node still has cl-new, take the first such node in document
order, run the inner discovery walk from it, and clear the walked cl-new
tags. Each iteration clears at least the top node's cl-new tag, so a fuel
of one more than the cl-new count suffices. -/
def newLoop : Nat → List STree → List SData × List STree
  | 0, f => ([], f)
  | fuel + 1, f =>
    match findFirstNewF f with
    | none => ([], f)
    | some sub =>
      let out1 := bfsNew (sizeT sub + 1) [sub]
      let (out2, f2) := newLoop fuel (clearFirstNewF f)
      (out1 ++ out2, f2)

/-- The moved/updated loops of getMutationSummary (lines 275-287): while
some document node satisfies the class predicate, push the first such node
in document order and removeAllClasses on it. -/
def tagLoop (p : SData → Bool) : Nat → List STree → List SData × List STree
  | 0, f => ([], f)
  | fuel + 1, f =>
    match findFirstPF p f with
    | none => ([], f)
    | some d =>
      let (out2, f2) := tagLoop p fuel (clearAtFirstPF p (fun e => { e with cls := Classes.nil }) f)
      (d :: out2, f2)

/-- The cl-final cleanup loop of applyMutationBatch (lines 187-190): while
some document node has cl-final, remove that class from the first such
node. -/
def finLoop : Nat → List STree → List STree
  | 0, f => f
  | fuel + 1, f =>
    match findFirstPF (fun d => d.cls.clFinal) f with
    | none => f
    | some _ =>
      finLoop fuel
        (clearAtFirstPF (fun d => d.cls.clFinal)
          (fun e => { e with cls := { e.cls with clFinal := false } }) f)

/-- The four lists of a mutation summary, as snapshots of the pushed
shadow nodes' data at push time. -/
structure Summary where
  newNodes : List SData
  movedNodes : List SData
  updatedNodes : List SData
  removedNodes : List SData
deriving DecidableEq, Repr

/-- getMutationSummary (lines 248-298). It runs after the holding area was
detached, so the class-collection loops see only the shadowDomRoot forest;
the removed list reads the holding div's direct children in order, skipping
nodes still tagged cl-new. -/
def ShadowDom.getMutationSummary (s : ShadowDom) : Summary × ShadowDom :=
  let pNew := fun d : SData => d.cls.clNew
  let pMoved := fun d : SData => d.cls.clMoved
  let pUpd := fun d : SData => d.cls.clUpdated
  let (newNodes, r1) := newLoop (countPF pNew s.root + 1) s.root
  let (movedNodes, r2) := tagLoop pMoved (countPF pMoved r1 + 1) r1
  let (updatedNodes, r3) := tagLoop pUpd (countPF pUpd r2 + 1) r2
  let removedNodes := (s.removedKids.map STree.data).filter (fun d => !d.cls.clNew)
  (⟨newNodes, movedNodes, updatedNodes, removedNodes⟩, { s with root := r3 })

/-- applyMutationBatch (lines 138-195): attach the holding area and enable
classification, process the records, detach the holding area, extract the
summary, clear all cl-final tags in the document, empty the holding area,
disable classification. -/
def ShadowDom.applyMutationBatch (s : ShadowDom) (w : LiveWorld) (ms : List MRecord) :
    ShadowDom × Summary :=
  let s0 := { s with removedAttached := true, classifyNodes := true }
  let s1 := ShadowDom.processRecords s0 w ms
  let s2 := { s1 with removedAttached := false }
  let (summary, s3) := s2.getMutationSummary
  let s4 :=
    { s3 with root := finLoop (countPF (fun d => d.cls.clFinal) s3.root + 1) s3.root,
              removedKids := [], classifyNodes := false }
  (s4, summary)

mutual
def preT : STree → List SData
  | .mk d kids => d :: preF kids
def preF : List STree → List SData
  | [] => []
  | t :: ts => preT t ++ preF ts
end

mutual
def lpreT : LTree → List NodeId
  | .mk v kids => v :: lpreF kids
def lpreF : List LTree → List NodeId
  | [] => []
  | t :: ts => lpreT t ++ lpreF ts
end

/-- mirrorsRealDom (lines 197-224). Modelled from the spec for the parts
outside src/: traverseNodeTree of utils.ts is a document-order (preorder)
traversal, and the asserts report without interrupting control flow. The
live document is traversed collecting each node's registry index, the
mirror subtree rooted at the shadowDocument reference likewise via each
mirror node's .node reference, and the two sequences are compared. A
missing shadowDocument (never the case after a document insert) is
modelled as false since the source would fail on the null dereference. -/
def ShadowDom.mirrorsRealDom (s : ShadowDom) (w : LiveWorld) : Bool :=
  match s.shadowDocument with
  | none => false
  | some di =>
    let domIndices := (lpreT w.doc).map (fun v => lookupReg s.registry v)
    let shadowDomIndices :=
      match findF di (s.root ++ s.removedKids) with
      | some t => (preT t).map (fun d => lookupReg s.registry d.live)
      | none => []
    decide (domIndices = shadowDomIndices)

/-- Batches applied in sequence, each against the live world current at its
delivery. -/
def ShadowDom.runBatches (s : ShadowDom) : List (LiveWorld × List MRecord) → ShadowDom
  | [] => s
  | (w, ms) :: rest => ShadowDom.runBatches (s.applyMutationBatch w ms).1 rest

/-- The three public structural operations of claim C10, invoked directly
(outside applyMutationBatch). -/
inductive DirectOp where
  | ins (v : NodeId) (parentIndex nextSiblingIndex : Option Nat) (layout : Option LayoutState)
  | mov (index newParentIndex newNextSiblingIndex : Option Nat)
  | upd (index : Option Nat) (newLayout : Option LayoutState)

def ShadowDom.applyDirectOp (s : ShadowDom) : DirectOp → ShadowDom
  | .ins v p n l => (s.insertShadowNode v p n l).2
  | .mov i p n => s.moveShadowNode i p n
  | .upd i l => s.updateShadowNode i l

def ShadowDom.runDirectOps (s : ShadowDom) : List DirectOp → ShadowDom
  | [] => s
  | o :: os => ShadowDom.runDirectOps (s.applyDirectOp o) os

/-- Any operation of the public surface, for lifetime-of-the-process
statements. -/
inductive EngineOp where
  | direct (o : DirectOp)
  | rem (index : Option Nat)
  | batch (w : LiveWorld) (ms : List MRecord)

def ShadowDom.applyEngineOp (s : ShadowDom) : EngineOp → ShadowDom
  | .direct o => s.applyDirectOp o
  | .rem i => s.removeShadowNode i
  | .batch w ms => (s.applyMutationBatch w ms).1

def ShadowDom.runEngineOps (s : ShadowDom) : List EngineOp → ShadowDom
  | [] => s
  | o :: os => ShadowDom.runEngineOps (s.applyEngineOp o) os

/-! Derived notions used to state and prove the claims. -/

mutual
def mapDataT (f : SData → SData) : STree → STree
  | .mk d kids => .mk (f d) (mapDataF f kids)
def mapDataF (f : SData → SData) : List STree → List STree
  | [] => []
  | t :: ts => mapDataT f t :: mapDataF f ts
end

/-- Occurrence of a subtree inside a mirror tree. -/
inductive SubT : STree → STree → Prop where
  | refl (t : STree) : SubT t t
  | kid {s k : STree} {d : SData} {kids : List STree} :
      k ∈ kids → SubT s k → SubT s (.mk d kids)

mutual
/-- The set of nodes the inner discovery walk from a top node appends: the
nodes reachable from the root along paths of cl-new nodes, here in
depth-first order (the walk itself produces them in breadth-first order). -/
def reachT : STree → List SData
  | .mk d kids => if d.cls.clNew then d :: reachF kids else []
def reachF : List STree → List SData
  | [] => []
  | t :: ts => reachT t ++ reachF ts
end

/-- Indices of all nodes of a forest in document order. -/
def idxsF (l : List STree) : List Nat := (preF l).map (fun d => d.idx)

/-- Data of the first document-order node with index i. -/
def findData (l : List STree) (i : Nat) : Option SData :=
  (preF l).find? (fun d => d.idx = i)

/-- Index-and-classes pairs of every mirror node of the instance. -/
def ShadowDom.clsPairs (s : ShadowDom) : List (Nat × Classes) :=
  (preF s.root ++ preF s.removedKids).map (fun d => (d.idx, d.cls))

/-- Classes carrying no tag that getMutationSummary reads. -/
def Classes.sumNil (c : Classes) : Prop :=
  c.clNew = false ∧ c.clMoved = false ∧ c.clUpdated = false

/-- List-level image of clearAtFirstPF: update the first element satisfying
the predicate. -/
def clearAtFirstL (p : SData → Bool) (g : SData → SData) : List SData → List SData
  | [] => []
  | d :: ds => if p d then g d :: ds else d :: clearAtFirstL p g ds

/-- Registry well-formedness: every assigned index is below nextIndex and
no index is assigned to two live nodes. -/
def RegWF (s : ShadowDom) : Prop :=
  (∀ v i, lookupReg s.registry v = some i → i < s.nextIndex) ∧
  (∀ v w i, lookupReg s.registry v = some i → lookupReg s.registry w = some i → v = w)

/-- Registry evolution: nextIndex is monotone, assignments persist, and any
assignment not present before uses a fresh index. -/
def RegExt (s1 s2 : ShadowDom) : Prop :=
  s1.nextIndex ≤ s2.nextIndex ∧
  (∀ v i, lookupReg s1.registry v = some i → lookupReg s2.registry v = some i) ∧
  (∀ v i, lookupReg s2.registry v = some i →
    lookupReg s1.registry v = some i ∨ s1.nextIndex ≤ i)

def eraseTopC (c : Classes) : Classes := { c with clNewTop := false }

def eraseTopD (d : SData) : SData := { d with cls := eraseTopC d.cls }

/-- The instance with every cl-new-top tag erased. -/
def ShadowDom.eraseTop (s : ShadowDom) : ShadowDom :=
  { s with root := mapDataF eraseTopD s.root,
           removedKids := mapDataF eraseTopD s.removedKids }

def Summary.eraseTop (x : Summary) : Summary :=
  ⟨x.newNodes.map eraseTopD, x.movedNodes.map eraseTopD,
   x.updatedNodes.map eraseTopD, x.removedNodes.map eraseTopD⟩

mutual
/-- Modelled from the spec: the new-list order claimed by the spec and
claim C3, stated for refutation only: depth-first traversal visiting
children left-to-right, appending every node tagged new. -/
def dfsNewSpecT : STree → List SData
  | .mk d kids => (if d.cls.clNew then [d] else []) ++ dfsNewSpecF kids
def dfsNewSpecF : List STree → List SData
  | [] => []
  | t :: ts => dfsNewSpecT t ++ dfsNewSpecF ts
end

/-- Child indices of the node with index i. -/
def childIdxsOf (i : Nat) (l : List STree) : Option (List Nat) :=
  (findF i l).map (fun t => t.kids.map STree.rootIdx)

/-- List-level image of insertKid on child index lists. -/
def insertIdxBefore (x : Nat) (anchor : Option Nat) : List Nat → List Nat
  | [] => [x]
  | k :: ks => if anchor = some k then x :: k :: ks else k :: insertIdxBefore x anchor ks

/-! Concrete instances used by the counterexamples and witnesses. The base
state mirrors a live document document(0) -> body(1) -> A(2), B(3), with
indices equal to the live identities and nextIndex 4. -/

def exBase : ShadowDom :=
  { nextIndex := 4,
    registry := [(0, 0), (1, 1), (2, 2), (3, 3)],
    root := [.mk ⟨0, 0, none, false, Classes.nil⟩
              [.mk ⟨1, 1, none, false, Classes.nil⟩
                [.mk ⟨2, 2, none, false, Classes.nil⟩ [],
                 .mk ⟨3, 3, none, false, Classes.nil⟩ []]]],
    removedKids := [], removedAttached := false,
    shadowDocument := some 0, classifyNodes := false, reports := [] }

def exLive0 : LiveWorld := ⟨.mk 0 [.mk 1 [.mk 2 [], .mk 3 []]], []⟩

/-- Claim C1 failing input, live side. One synchronous script does three
operations: append a fresh node P(10) to the body; move the tracked node
A(2) into P; move A back under the body before P. The live document at
callback time is the final one. -/
def exLiveC1 : LiveWorld := ⟨.mk 0 [.mk 1 [.mk 2 [], .mk 3 [], .mk 10 []]], []⟩

/-- Claim C1 failing input, record side: exactly the records a
MutationObserver queues for the three operations (a move queues its
removal record before its insertion record). -/
def exBatchC1 : List MRecord :=
  [ .childList 1 [10] [] (some 3) none,
    .childList 1 [] [2] none (some 3),
    .childList 10 [2] [] none none,
    .childList 10 [] [2] none none,
    .childList 1 [2] [] none (some 3) ]

/-- Claim C3 counterexample input: one record inserts the fresh subtree
P(10) with two children A2(11) and B2(13). -/
def exLiveC3 : LiveWorld :=
  ⟨.mk 0 [.mk 1 [.mk 2 [], .mk 3 [], .mk 10 [.mk 11 [], .mk 13 []]]], []⟩

def exBatchC3 : List MRecord := [.childList 1 [10] [] (some 3) none]

/-- Claim C6 counterexample input: update B(3) then A(2) (tagging order B
before A, document order A before B), insert fresh N(20), update N. -/
def exLiveC6 : LiveWorld := ⟨.mk 0 [.mk 1 [.mk 2 [], .mk 3 [], .mk 20 []]], []⟩

def exBatchC6 : List MRecord :=
  [ .attributes 3 none none,
    .attributes 2 none none,
    .childList 1 [20] [] (some 3) none,
    .attributes 20 none none ]

/-- Claim C7 counterexample input: a single insert of a fresh node. -/
def exLiveC7 : LiveWorld := ⟨.mk 0 [.mk 1 [.mk 2 [], .mk 3 [], .mk 30 []]], []⟩

def exBatchC7 : List MRecord := [.childList 1 [30] [] (some 3) none]

/-- Claim C5 counterexample input: the first record names the untracked
parent 99 (no mirror node) adding the untracked node 98; the second record
is an ordinary insert of the fresh node 40. -/
def exLiveC5 : LiveWorld :=
  ⟨.mk 0 [.mk 1 [.mk 2 [], .mk 3 [], .mk 40 []]], [.mk 99 [.mk 98 []]]⟩

def exBatchC5 : List MRecord :=
  [ .childList 99 [98] [] none none,
    .childList 1 [40] [] (some 3) none ]

/-- Claim C2 witness input: insert the fresh node T(50) under the body and
remove it within the same batch. -/
def exLiveC2 : LiveWorld := ⟨.mk 0 [.mk 1 [.mk 2 [], .mk 3 []]], [.mk 50 []]⟩

def exBatchC2 : List MRecord :=
  [ .childList 1 [50] [] (some 3) none,
    .childList 1 [] [50] (some 3) none ]

/-- Claim C4 witness input: one record inserts the fresh node P(60) whose
live subtree already contains the child C(61); a later stale record of the
same batch claims to insert C under P directly, and another to remove it. -/
def exLiveC4 : LiveWorld :=
  ⟨.mk 0 [.mk 1 [.mk 2 [], .mk 3 [], .mk 60 [.mk 61 []]]], []⟩

def exBatchC4head : List MRecord := [.childList 1 [60] [] (some 3) none]

/-- The processing state of the C4 scenario after the genuine insert
record, holding area attached, classification on: P(60) got index 4 and
cl-final/cl-new/cl-new-top, its discovered child C(61) got index 5 and
cl-final/cl-new. Written as a literal; the theorem exC4mid_eq proves it is
the processed state. -/
def exC4mid : ShadowDom :=
  ⟨6, [(61, 5), (60, 4), (0, 0), (1, 1), (2, 2), (3, 3)],
   [.mk ⟨0, 0, none, false, ⟨false, false, false, false, false⟩⟩
     [.mk ⟨1, 1, none, false, ⟨false, false, false, false, false⟩⟩
       [.mk ⟨2, 2, none, false, ⟨false, false, false, false, false⟩⟩ [],
        .mk ⟨3, 3, none, false, ⟨false, false, false, false, false⟩⟩ [],
        .mk ⟨4, 60, none, false, ⟨true, true, true, false, false⟩⟩
          [.mk ⟨5, 61, none, false, ⟨true, true, false, false, false⟩⟩ []]]]],
   [], true, some 0, true, []⟩

/-- Claim C8 witness input: the tracked node A(2) is moved under the
tracked node B(3); a move queues its removal record before its insertion
record. -/
def exLiveC8 : LiveWorld := ⟨.mk 0 [.mk 1 [.mk 3 [.mk 2 []]]], []⟩

def exBatchC8 : List MRecord :=
  [ .childList 1 [] [2] none (some 3),
    .childList 3 [2] [] none none ]

/-- The engine state in the middle of applyMutationBatch, after the holding
area was attached, classification enabled and the records processed (lines
139-178), before summary extraction and cleanup. -/
def ShadowDom.midBatch (s : ShadowDom) (w : LiveWorld) (ms : List MRecord) : ShadowDom :=
  ShadowDom.processRecords { s with removedAttached := true, classifyNodes := true } w ms

/-- Claim C4 full batch: the genuine insert of P(60) (whose discovery
creates C(61)), then a stale record claiming to insert C directly, then a
stale record claiming to remove C. -/
def exBatchC4full : List MRecord :=
  [ .childList 1 [60] [] (some 3) none,
    .childList 60 [61] [] none none,
    .childList 60 [] [61] none none ]

/-- Claim C8 second scenario, live side: the body gains a fresh node P(70)
and the tracked node A(2) is moved under P, so the move's new parent mirror
is tagged new. -/
def exLiveC8b : LiveWorld := ⟨.mk 0 [.mk 1 [.mk 3 [], .mk 70 [.mk 2 []]]], []⟩

def exBatchC8b : List MRecord :=
  [ .childList 1 [70] [] none none,
    .childList 1 [] [2] none (some 3),
    .childList 70 [2] [] none none ]

/-- The processing state of the C8 scenario (tracked A(2) moved under
tracked B(3)) after the records, holding area attached, classification on:
A keeps index 2, sits under B, and carries cl-moved and cl-new-top (its new
parent B is not tagged new). Written as a literal; exC8mid_eq proves it is
the processed state. -/
def exC8mid : ShadowDom :=
  ⟨4, [(0, 0), (1, 1), (2, 2), (3, 3)],
   [.mk ⟨0, 0, none, false, ⟨false, false, false, false, false⟩⟩
     [.mk ⟨1, 1, none, false, ⟨false, false, false, false, false⟩⟩
       [.mk ⟨3, 3, none, false, ⟨false, false, false, false, false⟩⟩
         [.mk ⟨2, 2, none, false, ⟨false, false, true, true, false⟩⟩ []]]]],
   [], true, some 0, true, []⟩

/-- The processing state of the C8b scenario (fresh P(70) inserted, tracked
A(2) moved under it) after the records: A keeps index 2, sits under P, and
carries cl-moved without cl-new-top (its new parent P is tagged new).
Written as a literal; exC8bmid_eq proves it is the processed state. -/
def exC8bmid : ShadowDom :=
  ⟨5, [(70, 4), (0, 0), (1, 1), (2, 2), (3, 3)],
   [.mk ⟨0, 0, none, false, ⟨false, false, false, false, false⟩⟩
     [.mk ⟨1, 1, none, false, ⟨false, false, false, false, false⟩⟩
       [.mk ⟨3, 3, none, false, ⟨false, false, false, false, false⟩⟩ [],
        .mk ⟨4, 70, none, false, ⟨true, true, true, false, false⟩⟩
          [.mk ⟨2, 2, none, false, ⟨false, false, false, true, false⟩⟩ []]]]],
   [], true, some 0, true, []⟩

/-- Reachability along paths of cl-new nodes: the node set one inner
discovery walk of the new-nodes loop visits, as a relation between the walk
root and the visited subtree. -/
inductive NewReach : STree → STree → Prop where
  | refl (t : STree) : t.data.cls.clNew = true → NewReach t t
  | step {t u : STree} (k : STree) : t.data.cls.clNew = true → k ∈ t.kids →
      NewReach k u → NewReach t u

/-- Mid-batch state of the C3 scenario: the three-node subtree 10/11/13
has been discovered and inserted. -/
def exC3mid : ShadowDom :=
  ⟨7, [(11, 6), (13, 5), (10, 4), (0, 0), (1, 1), (2, 2), (3, 3)],
   [.mk ⟨0, 0, none, false, ⟨false, false, false, false, false⟩⟩ [.mk ⟨1, 1, none, false, ⟨false, false, false, false, false⟩⟩ [.mk ⟨2, 2, none, false, ⟨false, false, false, false, false⟩⟩ [], .mk ⟨3, 3, none, false, ⟨false, false, false, false, false⟩⟩ [], .mk ⟨4, 10, none, false, ⟨true, true, true, false, false⟩⟩ [.mk ⟨6, 11, none, false, ⟨true, true, false, false, false⟩⟩ [], .mk ⟨5, 13, none, false, ⟨true, true, false, false, false⟩⟩ []]]]],
   [], true, some 0, true, []⟩

/-- One evolution step of the registry: extension plus preservation of
well-formedness. -/
def RegStep (s1 s2 : ShadowDom) : Prop := RegExt s1 s2 ∧ (RegWF s1 → RegWF s2)

/-! Theorems. Registry evolution first: the registry and nextIndex are
touched only by setNodeIndex, which insertShadowNode alone calls. -/

theorem regExt_refl (s : ShadowDom) : RegExt s s :=
  ⟨Nat.le_refl _, fun _ _ h => h, fun _ _ h => Or.inl h⟩

theorem regExt_trans {s1 s2 s3 : ShadowDom} (h1 : RegExt s1 s2) (h2 : RegExt s2 s3) :
    RegExt s1 s3 := by
  obtain ⟨a1, b1, c1⟩ := h1
  obtain ⟨a2, b2, c2⟩ := h2
  refine ⟨Nat.le_trans a1 a2, fun v i h => b2 _ _ (b1 _ _ h), fun v i h => ?_⟩
  rcases c2 v i h with h3 | h3
  · exact c1 v i h3
  · exact Or.inr (Nat.le_trans a1 h3)

theorem regStep_refl (s : ShadowDom) : RegStep s s := ⟨regExt_refl s, id⟩

theorem regStep_trans {s1 s2 s3 : ShadowDom} (h1 : RegStep s1 s2) (h2 : RegStep s2 s3) :
    RegStep s1 s3 := ⟨regExt_trans h1.1 h2.1, fun h => h2.2 (h1.2 h)⟩

theorem regStep_of_lookup_eq {s1 s2 : ShadowDom}
    (hr : ∀ u, lookupReg s2.registry u = lookupReg s1.registry u)
    (hn : s2.nextIndex = s1.nextIndex) :
    RegStep s1 s2 := by
  constructor
  · refine ⟨by rw [hn], fun v i h => by rw [hr]; exact h, fun v i h => ?_⟩
    rw [hr] at h; exact Or.inl h
  · intro ⟨hb, hinj⟩
    refine ⟨fun v i h => ?_, fun v w i h1 h2 => ?_⟩
    · rw [hr] at h; rw [hn]; exact hb v i h
    · rw [hr] at h1 h2; exact hinj v w i h1 h2

theorem regStep_of_same {s1 s2 : ShadowDom}
    (hr : s2.registry = s1.registry) (hn : s2.nextIndex = s1.nextIndex) :
    RegStep s1 s2 :=
  regStep_of_lookup_eq (fun _ => by rw [hr]) hn

theorem lookupReg_cons (a : NodeId) (b : Nat) (r : List (NodeId × Nat)) (v : NodeId) :
    lookupReg ((a, b) :: r) v = if a = v then some b else lookupReg r v := rfl

theorem lookup_setNodeIndex_some {s : ShadowDom} {v : NodeId} {i : Nat}
    (h : lookupReg s.registry v = some i) :
    (s.setNodeIndex v).1 = i ∧
    (∀ u, lookupReg (s.setNodeIndex v).2.registry u = lookupReg s.registry u) ∧
    (s.setNodeIndex v).2.nextIndex = s.nextIndex := by
  unfold ShadowDom.setNodeIndex
  rw [h]
  refine ⟨rfl, fun u => ?_, rfl⟩
  show lookupReg ((v, i) :: s.registry) u = lookupReg s.registry u
  rw [lookupReg_cons]
  split
  · next heq => rw [← heq, h]
  · rfl

theorem lookup_setNodeIndex_none {s : ShadowDom} {v : NodeId}
    (h : lookupReg s.registry v = none) :
    (s.setNodeIndex v).1 = s.nextIndex ∧
    (s.setNodeIndex v).2.nextIndex = s.nextIndex + 1 ∧
    lookupReg (s.setNodeIndex v).2.registry v = some s.nextIndex ∧
    ∀ u, u ≠ v → lookupReg (s.setNodeIndex v).2.registry u = lookupReg s.registry u := by
  unfold ShadowDom.setNodeIndex
  rw [h]
  refine ⟨rfl, rfl, ?_, fun u hu => ?_⟩
  · show lookupReg ((v, s.nextIndex) :: s.registry) v = some s.nextIndex
    rw [lookupReg_cons]
    simp
  · show lookupReg ((v, s.nextIndex) :: s.registry) u = lookupReg s.registry u
    rw [lookupReg_cons]
    split
    · next heq => exact absurd heq.symm hu
    · rfl

theorem regStep_setNodeIndex (s : ShadowDom) (v : NodeId) :
    RegStep s (s.setNodeIndex v).2 := by
  cases h : lookupReg s.registry v with
  | some i =>
    obtain ⟨-, hall, hn⟩ := lookup_setNodeIndex_some h
    exact regStep_of_lookup_eq hall hn
  | none =>
    obtain ⟨-, hn, hv, ho⟩ := lookup_setNodeIndex_none h
    constructor
    · refine ⟨by rw [hn]; exact Nat.le_succ _, fun u i hu => ?_, fun u i hu => ?_⟩
      · by_cases huv : u = v
        · subst huv; rw [h] at hu; cases hu
        · rw [ho u huv]; exact hu
      · by_cases huv : u = v
        · subst huv; rw [hv] at hu; cases hu; exact Or.inr (Nat.le_refl _)
        · rw [ho u huv] at hu; exact Or.inl hu
    · intro ⟨hb, hinj⟩
      constructor
      · intro u i hu
        by_cases huv : u = v
        · subst huv; rw [hv] at hu; cases hu; rw [hn]; exact Nat.lt_succ_self _
        · rw [ho u huv] at hu; rw [hn]; exact Nat.lt_succ_of_lt (hb u i hu)
      · intro u w i hu hw
        by_cases huv : u = v <;> by_cases hwv : w = v
        · rw [huv, hwv]
        · subst huv; rw [hv] at hu; cases hu
          rw [ho w hwv] at hw
          exact absurd (hb w _ hw) (Nat.lt_irrefl _)
        · subst hwv; rw [hv] at hw; cases hw
          rw [ho u huv] at hu
          exact absurd (hb u _ hu) (Nat.lt_irrefl _)
        · rw [ho u huv] at hu; rw [ho w hwv] at hw
          exact hinj u w i hu hw

@[simp] theorem assert_registry (s : ShadowDom) (c : Bool) (a b : String) :
    (s.assert c a b).registry = s.registry := by
  unfold ShadowDom.assert; split <;> rfl

@[simp] theorem assert_nextIndex (s : ShadowDom) (c : Bool) (a b : String) :
    (s.assert c a b).nextIndex = s.nextIndex := by
  unfold ShadowDom.assert; split <;> rfl

@[simp] theorem assert_root (s : ShadowDom) (c : Bool) (a b : String) :
    (s.assert c a b).root = s.root := by
  unfold ShadowDom.assert; split <;> rfl

@[simp] theorem assert_removedKids (s : ShadowDom) (c : Bool) (a b : String) :
    (s.assert c a b).removedKids = s.removedKids := by
  unfold ShadowDom.assert; split <;> rfl

@[simp] theorem assert_removedAttached (s : ShadowDom) (c : Bool) (a b : String) :
    (s.assert c a b).removedAttached = s.removedAttached := by
  unfold ShadowDom.assert; split <;> rfl

@[simp] theorem assert_shadowDocument (s : ShadowDom) (c : Bool) (a b : String) :
    (s.assert c a b).shadowDocument = s.shadowDocument := by
  unfold ShadowDom.assert; split <;> rfl

@[simp] theorem assert_classifyNodes (s : ShadowDom) (c : Bool) (a b : String) :
    (s.assert c a b).classifyNodes = s.classifyNodes := by
  unfold ShadowDom.assert; split <;> rfl

@[simp] theorem updData_registry (s : ShadowDom) (i : Nat) (f : SData → SData) :
    (s.updData i f).registry = s.registry := rfl

@[simp] theorem updData_nextIndex (s : ShadowDom) (i : Nat) (f : SData → SData) :
    (s.updData i f).nextIndex = s.nextIndex := rfl

@[simp] theorem updData_removedAttached (s : ShadowDom) (i : Nat) (f : SData → SData) :
    (s.updData i f).removedAttached = s.removedAttached := rfl

@[simp] theorem updData_shadowDocument (s : ShadowDom) (i : Nat) (f : SData → SData) :
    (s.updData i f).shadowDocument = s.shadowDocument := rfl

@[simp] theorem updData_classifyNodes (s : ShadowDom) (i : Nat) (f : SData → SData) :
    (s.updData i f).classifyNodes = s.classifyNodes := rfl

@[simp] theorem updClsAt_registry (s : ShadowDom) (i : Nat) (f : Classes → Classes) :
    (s.updClsAt i f).registry = s.registry := rfl

@[simp] theorem updClsAt_nextIndex (s : ShadowDom) (i : Nat) (f : Classes → Classes) :
    (s.updClsAt i f).nextIndex = s.nextIndex := rfl

@[simp] theorem moveSurgery_registry (s : ShadowDom) (i p : Nat) (anchor : Option Nat) :
    (s.moveSurgery i p anchor).registry = s.registry := by
  unfold ShadowDom.moveSurgery
  split
  · rfl
  · split
    · split <;> rfl
    · rfl

@[simp] theorem moveSurgery_nextIndex (s : ShadowDom) (i p : Nat) (anchor : Option Nat) :
    (s.moveSurgery i p anchor).nextIndex = s.nextIndex := by
  unfold ShadowDom.moveSurgery
  split
  · rfl
  · split
    · split <;> rfl
    · rfl

@[simp] theorem moveShadowNode_registry (s : ShadowDom) (i p n : Option Nat) :
    (s.moveShadowNode i p n).registry = s.registry := by
  unfold ShadowDom.moveShadowNode
  dsimp only
  repeat' split
  all_goals simp

@[simp] theorem moveShadowNode_nextIndex (s : ShadowDom) (i p n : Option Nat) :
    (s.moveShadowNode i p n).nextIndex = s.nextIndex := by
  unfold ShadowDom.moveShadowNode
  dsimp only
  repeat' split
  all_goals simp

@[simp] theorem updateShadowNode_registry (s : ShadowDom) (i : Option Nat)
    (l : Option LayoutState) :
    (s.updateShadowNode i l).registry = s.registry := by
  unfold ShadowDom.updateShadowNode
  dsimp only
  repeat' split
  all_goals simp

@[simp] theorem updateShadowNode_nextIndex (s : ShadowDom) (i : Option Nat)
    (l : Option LayoutState) :
    (s.updateShadowNode i l).nextIndex = s.nextIndex := by
  unfold ShadowDom.updateShadowNode
  dsimp only
  repeat' split
  all_goals simp

@[simp] theorem removeShadowNode_registry (s : ShadowDom) (i : Option Nat) :
    (s.removeShadowNode i).registry = s.registry := by
  unfold ShadowDom.removeShadowNode
  dsimp only
  repeat' split
  all_goals simp

@[simp] theorem removeShadowNode_nextIndex (s : ShadowDom) (i : Option Nat) :
    (s.removeShadowNode i).nextIndex = s.nextIndex := by
  unfold ShadowDom.removeShadowNode
  dsimp only
  repeat' split
  all_goals simp

theorem insertShadowNode_registry (s : ShadowDom) (v : NodeId) (p n : Option Nat)
    (l : Option LayoutState) :
    (s.insertShadowNode v p n l).2.registry = (s.setNodeIndex v).2.registry ∧
    (s.insertShadowNode v p n l).2.nextIndex = (s.setNodeIndex v).2.nextIndex := by
  unfold ShadowDom.insertShadowNode
  dsimp only
  constructor <;> (repeat' split) <;> simp

theorem regStep_insertShadowNode (s : ShadowDom) (v : NodeId) (p n : Option Nat)
    (l : Option LayoutState) : RegStep s (s.insertShadowNode v p n l).2 :=
  regStep_trans (regStep_setNodeIndex s v)
    (regStep_of_same (insertShadowNode_registry s v p n l).1
      (insertShadowNode_registry s v p n l).2)

theorem regStep_moveShadowNode (s : ShadowDom) (i p n : Option Nat) :
    RegStep s (s.moveShadowNode i p n) :=
  regStep_of_same (moveShadowNode_registry s i p n) (moveShadowNode_nextIndex s i p n)

theorem regStep_updateShadowNode (s : ShadowDom) (i : Option Nat) (l : Option LayoutState) :
    RegStep s (s.updateShadowNode i l) :=
  regStep_of_same (updateShadowNode_registry s i l) (updateShadowNode_nextIndex s i l)

theorem regStep_removeShadowNode (s : ShadowDom) (i : Option Nat) :
    RegStep s (s.removeShadowNode i) :=
  regStep_of_same (removeShadowNode_registry s i) (removeShadowNode_nextIndex s i)

mutual
theorem regStep_applyInsert : ∀ (sub : LTree) (parent : NodeId) (next : Option NodeId)
    (force : Bool) (s : ShadowDom), RegStep s (s.applyInsert sub parent next force)
  | .mk v kids, parent, next, force, s => by
    unfold ShadowDom.applyInsert
    dsimp only
    split
    · split
      · next heqAdd =>
        split
        · next i hi =>
          exact regStep_trans
            (regStep_trans
              (regStep_insertShadowNode s v (s.getNodeIndex (some parent)) (s.getNodeIndex next) none)
              (regStep_of_same rfl rfl))
            (regStep_applyInsertKids kids v
              ((s.insertShadowNode v (s.getNodeIndex (some parent)) (s.getNodeIndex next) none).2.updClsAt
                i fun c => { c with clFinal := true }))
        · exact regStep_trans
            (regStep_insertShadowNode s v (s.getNodeIndex (some parent)) (s.getNodeIndex next) none)
            (regStep_applyInsertKids kids v
              (s.insertShadowNode v (s.getNodeIndex (some parent)) (s.getNodeIndex next) none).2)
      · exact regStep_moveShadowNode s _ _ _
    · exact regStep_refl s

theorem regStep_applyInsertKids : ∀ (kids : List LTree) (parent : NodeId) (s : ShadowDom),
    RegStep s (ShadowDom.applyInsertKids s kids parent)
  | [], _, s => regStep_refl s
  | [c], p, s => regStep_applyInsert c p none true s
  | c :: c2 :: rest, p, s =>
    regStep_trans (regStep_applyInsertKids (c2 :: rest) p s)
      (regStep_applyInsert c p (some c2.id) true _)
end

theorem regStep_applyRemove (s : ShadowDom) (r parent : NodeId) :
    RegStep s (s.applyRemove r parent) := by
  unfold ShadowDom.applyRemove
  split
  · exact regStep_refl s
  · split
    · exact regStep_removeShadowNode s _
    · exact regStep_refl s

theorem regStep_applyUpdate (s : ShadowDom) (v : NodeId) : RegStep s (s.applyUpdate v) := by
  unfold ShadowDom.applyUpdate
  split
  · exact regStep_refl s
  · exact regStep_updateShadowNode s _ _

theorem regStep_processAdded : ∀ (added : List NodeId) (s : ShadowDom) (w : LiveWorld)
    (target : NodeId) (recNext : Option NodeId),
    RegStep s (ShadowDom.processAdded s w target added recNext)
  | [], s, _, _, _ => regStep_refl s
  | [_], s, w, t, rn => by
    unfold ShadowDom.processAdded
    exact regStep_applyInsert _ _ _ _ _
  | a :: b :: rest, s, w, t, rn => by
    unfold ShadowDom.processAdded
    exact regStep_trans (regStep_processAdded (b :: rest) s w t rn)
      (regStep_applyInsert _ _ _ _ _)

theorem regStep_processRemoved : ∀ (removed : List NodeId) (s : ShadowDom) (target : NodeId),
    RegStep s (ShadowDom.processRemoved s target removed)
  | [], s, _ => regStep_refl s
  | r :: rest, s, t => by
    unfold ShadowDom.processRemoved
    exact regStep_trans (regStep_applyRemove s r t) (regStep_processRemoved rest _ t)

theorem regStep_applyRecord (s : ShadowDom) (w : LiveWorld) (m : MRecord) :
    RegStep s (s.applyRecord w m) := by
  cases m with
  | attributes t a o => exact regStep_applyUpdate s t
  | characterData t o => exact regStep_applyUpdate s t
  | childList t added removed p n =>
    exact regStep_trans (regStep_processAdded added s w t n) (regStep_processRemoved removed _ t)

theorem regStep_processRecords : ∀ (ms : List MRecord) (s : ShadowDom) (w : LiveWorld),
    RegStep s (ShadowDom.processRecords s w ms)
  | [], s, _ => regStep_refl s
  | m :: ms, s, w => by
    unfold ShadowDom.processRecords
    exact regStep_trans (regStep_applyRecord s w m) (regStep_processRecords ms _ w)

theorem getMutationSummary_registry (s : ShadowDom) :
    (s.getMutationSummary).2.registry = s.registry ∧
    (s.getMutationSummary).2.nextIndex = s.nextIndex := by
  unfold ShadowDom.getMutationSummary
  dsimp only
  exact ⟨rfl, rfl⟩

theorem regStep_applyMutationBatch (s : ShadowDom) (w : LiveWorld) (ms : List MRecord) :
    RegStep s (s.applyMutationBatch w ms).1 := by
  unfold ShadowDom.applyMutationBatch
  dsimp only
  have h0 : RegStep s { s with removedAttached := true, classifyNodes := true } :=
    regStep_of_same rfl rfl
  have h1 := regStep_processRecords ms { s with removedAttached := true, classifyNodes := true } w
  have h2 := getMutationSummary_registry
    { ShadowDom.processRecords { s with removedAttached := true, classifyNodes := true } w ms
      with removedAttached := false }
  refine regStep_trans (regStep_trans (regStep_trans (regStep_trans h0 h1)
    (regStep_of_same rfl rfl)) (regStep_of_same h2.1 h2.2)) (regStep_of_same rfl rfl)

theorem regStep_applyDirectOp (s : ShadowDom) (o : DirectOp) :
    RegStep s (s.applyDirectOp o) := by
  cases o with
  | ins v p n l => exact regStep_insertShadowNode s v p n l
  | mov i p n => exact regStep_moveShadowNode s i p n
  | upd i l => exact regStep_updateShadowNode s i l

theorem regStep_applyEngineOp (s : ShadowDom) (o : EngineOp) :
    RegStep s (s.applyEngineOp o) := by
  cases o with
  | direct o => exact regStep_applyDirectOp s o
  | rem i => exact regStep_removeShadowNode s i
  | batch w ms => exact regStep_applyMutationBatch s w ms

theorem regStep_runEngineOps : ∀ (ops : List EngineOp) (s : ShadowDom),
    RegStep s (s.runEngineOps ops)
  | [], s => regStep_refl s
  | o :: os, s => by
    unfold ShadowDom.runEngineOps
    exact regStep_trans (regStep_applyEngineOp s o) (regStep_runEngineOps os _)

theorem regStep_runBatches : ∀ (bs : List (LiveWorld × List MRecord)) (s : ShadowDom),
    RegStep s (s.runBatches bs)
  | [], s => regStep_refl s
  | (w, ms) :: rest, s => by
    unfold ShadowDom.runBatches
    exact regStep_trans (regStep_applyMutationBatch s w ms) (regStep_runBatches rest _)

/-- C9: index assignment is idempotent and strictly monotone. setNodeIndex
returns the existing index of an already-indexed node, changing no
resolution and leaving nextIndex alone; for a fresh node it returns
nextIndex (a natural number, hence non-negative) and increments it, so
indices are handed out in strictly increasing order of first observation
(every index assigned after a state s is at least s.nextIndex, by RegExt).
Under any sequence of public operations and batches the registry stays
well-formed and an assigned index is never resolved by a second node. -/
theorem C9_setNodeIndex_idempotent_monotone :
    (∀ (s : ShadowDom) (v : NodeId) (i : Nat), lookupReg s.registry v = some i →
      (s.setNodeIndex v).1 = i ∧
      (∀ u, lookupReg (s.setNodeIndex v).2.registry u = lookupReg s.registry u) ∧
      (s.setNodeIndex v).2.nextIndex = s.nextIndex) ∧
    (∀ (s : ShadowDom) (v : NodeId), lookupReg s.registry v = none →
      (s.setNodeIndex v).1 = s.nextIndex ∧
      (s.setNodeIndex v).2.nextIndex = s.nextIndex + 1 ∧
      lookupReg (s.setNodeIndex v).2.registry v = some s.nextIndex ∧
      ∀ u, u ≠ v → lookupReg (s.setNodeIndex v).2.registry u = lookupReg s.registry u) ∧
    (∀ (s : ShadowDom) (ops : List EngineOp), RegExt s (s.runEngineOps ops)) ∧
    (∀ (s : ShadowDom) (ops : List EngineOp), RegWF s → RegWF (s.runEngineOps ops)) ∧
    (∀ (s : ShadowDom) (ops : List EngineOp) (v : NodeId) (i : Nat),
      RegWF s → lookupReg s.registry v = some i →
      lookupReg (s.runEngineOps ops).registry v = some i ∧
      ∀ u, u ≠ v → lookupReg (s.runEngineOps ops).registry u ≠ some i) := by
  refine ⟨fun s v i h => lookup_setNodeIndex_some h,
          fun s v h => lookup_setNodeIndex_none h,
          fun s ops => (regStep_runEngineOps ops s).1,
          fun s ops h => (regStep_runEngineOps ops s).2 h,
          fun s ops v i hwf h => ?_⟩
  have hstep := regStep_runEngineOps ops s
  have hv : lookupReg (s.runEngineOps ops).registry v = some i := hstep.1.2.1 v i h
  refine ⟨hv, fun u hu hcon => ?_⟩
  exact hu ((hstep.2 hwf).2 u v i hcon hv)

theorem lookupReg_mem : ∀ (r : List (NodeId × Nat)) (v : NodeId) (i : Nat),
    lookupReg r v = some i → (v, i) ∈ r
  | [], _, _, h => by cases h
  | (a, b) :: rest, v, i, h => by
    rw [lookupReg_cons] at h
    split at h
    · next heq => cases h; rw [heq]; exact List.mem_cons_self _ _
    · exact List.mem_cons_of_mem _ (lookupReg_mem rest v i h)

/-- Sufficient pairwise conditions for registry well-formedness, decidable
on concrete association lists. -/
theorem regWF_of_pairs (s : ShadowDom)
    (hb : ∀ p ∈ s.registry, p.2 < s.nextIndex)
    (hi : ∀ p ∈ s.registry, ∀ q ∈ s.registry, p.2 = q.2 → p.1 = q.1) : RegWF s := by
  constructor
  · intro v i h
    exact hb (v, i) (lookupReg_mem _ _ _ h)
  · intro v w i h1 h2
    exact hi (v, i) (lookupReg_mem _ _ _ h1) (w, i) (lookupReg_mem _ _ _ h2) rfl

theorem C9_witness :
    RegWF exBase ∧
    lookupReg exBase.registry 2 = some 2 ∧
    lookupReg exBase.registry 50 = none ∧
    (exBase.setNodeIndex 2).1 = 2 ∧
    (exBase.setNodeIndex 50).1 = 4 ∧
    (exBase.setNodeIndex 50).2.nextIndex = 5 ∧
    (∀ u, u ≠ 50 →
      lookupReg ((exBase.runEngineOps [.batch exLiveC2 exBatchC2]).registry) u ≠ some 4) := by
  have hwf : RegWF exBase := regWF_of_pairs exBase (by decide) (by decide)
  have hfresh : lookupReg exBase.registry 50 = none := by decide
  have h4 : lookupReg ((exBase.setNodeIndex 50) : Nat × ShadowDom).2.registry 50 = some 4 := by
    decide
  refine ⟨hwf, by decide, hfresh,
    (C9_setNodeIndex_idempotent_monotone.1 exBase 2 2 (by decide)).1,
    (C9_setNodeIndex_idempotent_monotone.2.1 exBase 50 hfresh).1,
    (C9_setNodeIndex_idempotent_monotone.2.1 exBase 50 hfresh).2.1, ?_⟩
  have hmid : lookupReg ((exBase.runEngineOps [.batch exLiveC2 exBatchC2]).registry) 50 = some 4 := by
    decide
  intro u hu
  have hrun := C9_setNodeIndex_idempotent_monotone.2.2.2.2
    (exBase.runEngineOps [.batch exLiveC2 exBatchC2]) [] 50 4 ?_ hmid
  · exact hrun.2 u hu
  · exact C9_setNodeIndex_idempotent_monotone.2.2.2.1 exBase [.batch exLiveC2 exBatchC2] hwf

/-! Correspondence between the tree-level loop machinery and document-order
(preorder) lists, used to characterise getMutationSummary. -/

mutual
theorem preT_mapDataT (f : SData → SData) : ∀ t : STree, preT (mapDataT f t) = (preT t).map f
  | .mk d kids => by
    unfold mapDataT preT
    rw [preF_mapDataF f kids, List.map_cons]
theorem preF_mapDataF (f : SData → SData) : ∀ l : List STree, preF (mapDataF f l) = (preF l).map f
  | [] => rfl
  | t :: ts => by
    unfold mapDataF preF
    rw [preT_mapDataT f t, preF_mapDataF f ts, List.map_append]
end

mutual
theorem hasPT_eq_any (p : SData → Bool) : ∀ t : STree, hasPT p t = (preT t).any p
  | .mk d kids => by
    unfold hasPT preT
    rw [hasPF_eq_any p kids, List.any_cons]
theorem hasPF_eq_any (p : SData → Bool) : ∀ l : List STree, hasPF p l = (preF l).any p
  | [] => rfl
  | t :: ts => by
    unfold hasPF preF
    rw [hasPT_eq_any p t, hasPF_eq_any p ts, List.any_append]
end

mutual
theorem countPT_eq_countP (p : SData → Bool) : ∀ t : STree, countPT p t = (preT t).countP p
  | .mk d kids => by
    unfold countPT preT
    rw [countPF_eq_countP p kids, List.countP_cons]
    omega
theorem countPF_eq_countP (p : SData → Bool) : ∀ l : List STree, countPF p l = (preF l).countP p
  | [] => rfl
  | t :: ts => by
    unfold countPF preF
    rw [countPT_eq_countP p t, countPF_eq_countP p ts, List.countP_append]
end

mutual
theorem findFirstPT_eq_find (p : SData → Bool) : ∀ t : STree,
    findFirstPT p t = (preT t).find? p
  | .mk d kids => by
    unfold findFirstPT preT
    rw [List.find?_cons]
    split
    · next heq => rw [heq]
    · next heq =>
      rw [Bool.not_eq_true] at *
      rw [findFirstPF_eq_find p kids]
      split
      · next hp => rw [hp] at heq; cases heq
      · rfl
theorem findFirstPF_eq_find (p : SData → Bool) : ∀ l : List STree,
    findFirstPF p l = (preF l).find? p
  | [] => rfl
  | t :: ts => by
    unfold findFirstPF preF
    rw [List.find?_append, findFirstPT_eq_find p t, findFirstPF_eq_find p ts]
    cases (preT t).find? p <;> rfl
end

/-- List-level image of clearAtFirstPF over concatenation. -/
theorem clearAtFirstL_append (p : SData → Bool) (g : SData → SData) (l1 l2 : List SData) :
    clearAtFirstL p g (l1 ++ l2) =
      if l1.any p then clearAtFirstL p g l1 ++ l2 else l1 ++ clearAtFirstL p g l2 := by
  induction l1 with
  | nil => simp [clearAtFirstL]
  | cons d ds ih =>
    cases hp : p d with
    | true => simp [clearAtFirstL, hp]
    | false =>
      rw [List.cons_append]
      show (if p d = true then g d :: (ds ++ l2) else d :: clearAtFirstL p g (ds ++ l2)) = _
      rw [if_neg (by simp [hp]), ih, List.any_cons, hp]
      simp only [Bool.false_or]
      by_cases hd : ds.any p = true
      · rw [if_pos hd, if_pos hd]
        show d :: (clearAtFirstL p g ds ++ l2) =
          (if p d = true then g d :: ds else d :: clearAtFirstL p g ds) ++ l2
        rw [if_neg (by simp [hp]), List.cons_append]
      · rw [if_neg hd, if_neg hd]
        rw [List.cons_append]

mutual
theorem preT_clearAtFirstPT (p : SData → Bool) (g : SData → SData) : ∀ t : STree,
    preT (clearAtFirstPT p g t) = clearAtFirstL p g (preT t)
  | .mk d kids => by
    cases hp : p d with
    | true => simp [clearAtFirstPT, preT, clearAtFirstL, hp]
    | false =>
      simp only [clearAtFirstPT, preT, clearAtFirstL, hp, Bool.false_eq_true, if_false,
        List.cons.injEq, true_and]
      exact preF_clearAtFirstPF p g kids
theorem preF_clearAtFirstPF (p : SData → Bool) (g : SData → SData) : ∀ l : List STree,
    preF (clearAtFirstPF p g l) = clearAtFirstL p g (preF l)
  | [] => rfl
  | t :: ts => by
    show preF (if hasPT p t then clearAtFirstPT p g t :: ts else t :: clearAtFirstPF p g ts) =
      clearAtFirstL p g (preT t ++ preF ts)
    rw [clearAtFirstL_append]
    cases ht : hasPT p t with
    | true =>
      rw [if_pos rfl, ← hasPT_eq_any, ht, if_pos rfl]
      show preT (clearAtFirstPT p g t) ++ preF ts = _
      rw [preT_clearAtFirstPT p g t]
    | false =>
      rw [if_neg (by simp), ← hasPT_eq_any, ht, if_neg (by simp)]
      show preT t ++ preF (clearAtFirstPF p g ts) = _
      rw [preF_clearAtFirstPF p g ts]
end

/-- The first p-element collected by find? heads the p-filter, and clearing
it with a p-falsifying update removes exactly it from the filter. -/
theorem filter_clearAtFirstL {p : SData → Bool} {g : SData → SData} {l : List SData} {d : SData}
    (hf : l.find? p = some d) (hg : ∀ e, p e = true → p (g e) = false) :
    l.filter p = d :: (clearAtFirstL p g l).filter p := by
  induction l with
  | nil => cases hf
  | cons e es ih =>
    rw [List.find?_cons] at hf
    cases hp : p e with
    | true =>
      rw [hp] at hf
      cases hf
      simp [clearAtFirstL, hp, List.filter_cons, hg d hp]
    | false =>
      rw [hp] at hf
      simp only [clearAtFirstL, hp, Bool.false_eq_true, if_false, List.filter_cons]
      exact ih hf

theorem countP_clearAtFirstL {p : SData → Bool} {g : SData → SData} {l : List SData} {d : SData}
    (hf : l.find? p = some d) (hg : ∀ e, p e = true → p (g e) = false) :
    (clearAtFirstL p g l).countP p + 1 = l.countP p := by
  have h1 := filter_clearAtFirstL hf hg
  have h2 : (l.filter p).length = ((clearAtFirstL p g l).filter p).length + 1 := by
    rw [h1]; simp
  rw [List.countP_eq_length_filter, List.countP_eq_length_filter, h2]

mutual
theorem mapDataT_congr_id {f : SData → SData} : ∀ t : STree,
    (∀ d ∈ preT t, f d = d) → mapDataT f t = t
  | .mk d kids => by
    intro h
    unfold mapDataT
    rw [h d (by unfold preT; exact List.mem_cons_self _ _),
      mapDataF_congr_id kids (fun e he => h e (by unfold preT; exact List.mem_cons_of_mem _ he))]
theorem mapDataF_congr_id {f : SData → SData} : ∀ l : List STree,
    (∀ d ∈ preF l, f d = d) → mapDataF f l = l
  | [] => fun _ => rfl
  | t :: ts => by
    intro h
    unfold mapDataF
    rw [mapDataT_congr_id t (fun e he => h e (by unfold preF; exact List.mem_append_left _ he)),
      mapDataF_congr_id ts (fun e he => h e (by unfold preF; exact List.mem_append_right _ he))]
end

mutual
theorem mapDataT_clearAtFirstPT {p : SData → Bool} {g q : SData → SData}
    (hqg : ∀ e, p e = true → q (g e) = q e) : ∀ t : STree,
    mapDataT q (clearAtFirstPT p g t) = mapDataT q t
  | .mk d kids => by
    unfold clearAtFirstPT
    split
    · next hp => unfold mapDataT; rw [hqg d hp]
    · next hp => unfold mapDataT; rw [mapDataF_clearAtFirstPF hqg kids]
theorem mapDataF_clearAtFirstPF {p : SData → Bool} {g q : SData → SData}
    (hqg : ∀ e, p e = true → q (g e) = q e) : ∀ l : List STree,
    mapDataF q (clearAtFirstPF p g l) = mapDataF q l
  | [] => rfl
  | t :: ts => by
    unfold clearAtFirstPF
    split
    · next ht => unfold mapDataF; rw [mapDataT_clearAtFirstPT hqg t]
    · next ht => unfold mapDataF; rw [mapDataF_clearAtFirstPF hqg ts]
end

/-- The moved/updated while loops of getMutationSummary collect, in
document order, exactly the nodes whose classes satisfy the predicate, and
removeAllClasses every collected node. -/
theorem tagLoop_spec {p : SData → Bool} (hp : ∀ e : SData, p { e with cls := Classes.nil } = false) :
    ∀ (fuel : Nat) (l : List STree), countPF p l < fuel →
    tagLoop p fuel l =
      ((preF l).filter p,
       mapDataF (fun d => if p d then { d with cls := Classes.nil } else d) l) := by
  intro fuel
  induction fuel with
  | zero => intro l h; cases h
  | succ n ih =>
    intro l h
    unfold tagLoop
    cases hf : findFirstPF p l with
    | none =>
      rw [findFirstPF_eq_find] at hf
      have hnone := List.find?_eq_none.mp hf
      have hfil : (preF l).filter p = [] := by
        rw [List.filter_eq_nil_iff]
        exact hnone
      have hmap : mapDataF (fun d => if p d then { d with cls := Classes.nil } else d) l = l :=
        mapDataF_congr_id l (fun d hd => by rw [if_neg (hnone d hd)])
      rw [hfil, hmap]
    | some d =>
      rw [findFirstPF_eq_find] at hf
      have hg : ∀ e : SData, p e = true → p ({ e with cls := Classes.nil }) = false :=
        fun e _ => hp e
      have hcount : countPF p (clearAtFirstPF p (fun e => { e with cls := Classes.nil }) l) < n := by
        rw [countPF_eq_countP, preF_clearAtFirstPF]
        rw [countPF_eq_countP] at h
        have := countP_clearAtFirstL hf hg
        omega
      have hfil := filter_clearAtFirstL hf hg
      have hmap := mapDataF_clearAtFirstPF
        (p := p) (g := fun e => { e with cls := Classes.nil })
        (q := fun d => if p d then { d with cls := Classes.nil } else d)
        (fun e he => by dsimp only; rw [if_neg (by simp [hp e]), if_pos he]) l
      rw [ih _ hcount]
      dsimp only
      rw [preF_clearAtFirstPF, ← hfil, hmap]

/-- The cl-final cleanup loop clears exactly the cl-final flags. -/
theorem finLoop_spec : ∀ (fuel : Nat) (l : List STree),
    countPF (fun d => d.cls.clFinal) l < fuel →
    finLoop fuel l =
      mapDataF (fun d => if d.cls.clFinal then { d with cls := { d.cls with clFinal := false } } else d) l := by
  intro fuel
  induction fuel with
  | zero => intro l h; cases h
  | succ n ih =>
    intro l h
    unfold finLoop
    cases hf : findFirstPF (fun d => d.cls.clFinal) l with
    | none =>
      rw [findFirstPF_eq_find] at hf
      have hnone := List.find?_eq_none.mp hf
      exact (mapDataF_congr_id l (fun d hd => by rw [if_neg (hnone d hd)])).symm
    | some d =>
      rw [findFirstPF_eq_find] at hf
      have hg : ∀ e : SData, e.cls.clFinal = true →
          ({ e with cls := { e.cls with clFinal := false } } : SData).cls.clFinal = false :=
        fun e _ => rfl
      have hcount : countPF (fun d => d.cls.clFinal)
          (clearAtFirstPF (fun d => d.cls.clFinal)
            (fun e => { e with cls := { e.cls with clFinal := false } }) l) < n := by
        rw [countPF_eq_countP, preF_clearAtFirstPF]
        rw [countPF_eq_countP] at h
        have := countP_clearAtFirstL hf hg
        omega
      rw [ih _ hcount]
      exact mapDataF_clearAtFirstPF
        (fun e he => by
          dsimp only
          rw [if_neg (fun hcon => Bool.false_ne_true hcon), if_pos he]) l

/-! The new-nodes loop: structural facts about sizes, reach sets and the
breadth-first discovery walk. Equation lemmas first, since the mutual and
fueled definitions are easier to rewrite with than to unfold. -/

theorem preT_eq (d : SData) (kids : List STree) : preT (.mk d kids) = d :: preF kids := rfl

theorem preF_nil : preF [] = [] := rfl

theorem preF_cons (t : STree) (ts : List STree) : preF (t :: ts) = preT t ++ preF ts := rfl

theorem sizeF_nil : sizeF [] = 0 := rfl

theorem sizeF_cons (t : STree) (ts : List STree) : sizeF (t :: ts) = sizeT t + sizeF ts := rfl

theorem sizeT_eq (d : SData) (kids : List STree) : sizeT (.mk d kids) = 1 + sizeF kids := rfl

theorem reachF_nil : reachF [] = [] := rfl

theorem reachF_cons (t : STree) (ts : List STree) : reachF (t :: ts) = reachT t ++ reachF ts := rfl

theorem reachT_eq (d : SData) (kids : List STree) :
    reachT (.mk d kids) = if d.cls.clNew then d :: reachF kids else [] := rfl

theorem bfsNew_zero (q : List STree) : bfsNew 0 q = [] := by cases q with
  | nil => rfl
  | cons t ts => cases t; rfl

theorem bfsNew_nil (fuel : Nat) : bfsNew fuel [] = [] := by cases fuel <;> rfl

theorem bfsNew_cons (fuel : Nat) (d : SData) (kids : List STree) (q : List STree) :
    bfsNew (fuel + 1) (.mk d kids :: q) =
      if d.cls.clNew then d :: bfsNew fuel (q ++ kids.reverse) else bfsNew fuel q := rfl

theorem sizeT_pos : ∀ t : STree, 0 < sizeT t
  | .mk d kids => by rw [sizeT_eq]; omega

theorem sizeF_append : ∀ l1 l2 : List STree, sizeF (l1 ++ l2) = sizeF l1 + sizeF l2
  | [], l2 => by simp [sizeF_nil]
  | t :: ts, l2 => by
    rw [List.cons_append, sizeF_cons, sizeF_cons, sizeF_append ts l2]
    omega

theorem sizeF_reverse : ∀ l : List STree, sizeF l.reverse = sizeF l
  | [] => rfl
  | t :: ts => by
    rw [List.reverse_cons, sizeF_append, sizeF_reverse ts, sizeF_cons]
    rw [sizeF_cons, sizeF_nil]
    omega

theorem reachF_append : ∀ l1 l2 : List STree, reachF (l1 ++ l2) = reachF l1 ++ reachF l2
  | [], l2 => rfl
  | t :: ts, l2 => by
    rw [List.cons_append, reachF_cons, reachF_cons, reachF_append ts l2, List.append_assoc]

theorem reachF_reverse_perm : ∀ l : List STree, (reachF l.reverse).Perm (reachF l)
  | [] => List.Perm.refl _
  | t :: ts => by
    rw [List.reverse_cons, reachF_append, reachF_cons, reachF_cons, reachF_nil, List.append_nil]
    exact ((reachF_reverse_perm ts).append_right _).trans List.perm_append_comm

mutual
theorem reachT_clNew : ∀ (t : STree) (x : SData), x ∈ reachT t → x.cls.clNew = true
  | .mk d kids, x => by
    intro hx
    rw [reachT_eq] at hx
    split at hx
    · next hd =>
      rcases List.mem_cons.mp hx with h | h
      · rw [h]; exact hd
      · exact reachF_clNew kids x h
    · cases hx
theorem reachF_clNew : ∀ (l : List STree) (x : SData), x ∈ reachF l → x.cls.clNew = true
  | [], x => fun hx => by cases hx
  | t :: ts, x => by
    intro hx
    rw [reachF_cons] at hx
    rcases List.mem_append.mp hx with h | h
    · exact reachT_clNew t x h
    · exact reachF_clNew ts x h
end

mutual
theorem reachT_sub_preT : ∀ (t : STree) (x : SData), x ∈ reachT t → x ∈ preT t
  | .mk d kids, x => by
    intro hx
    rw [reachT_eq] at hx
    rw [preT_eq]
    split at hx
    · rcases List.mem_cons.mp hx with h | h
      · rw [h]; exact List.mem_cons_self _ _
      · exact List.mem_cons_of_mem _ (reachF_sub_preF kids x h)
    · cases hx
theorem reachF_sub_preF : ∀ (l : List STree) (x : SData), x ∈ reachF l → x ∈ preF l
  | [], x => fun hx => by cases hx
  | t :: ts, x => by
    intro hx
    rw [reachF_cons] at hx
    rw [preF_cons]
    rcases List.mem_append.mp hx with h | h
    · exact List.mem_append_left _ (reachT_sub_preT t x h)
    · exact List.mem_append_right _ (reachF_sub_preF ts x h)
end

theorem preT_sub_of_mem : ∀ (l : List STree) (t : STree), t ∈ l → ∀ x ∈ preT t, x ∈ preF l
  | u :: us, t, ht, x, hx => by
    rw [preF_cons]
    rcases List.mem_cons.mp ht with h | h
    · exact List.mem_append_left _ (h ▸ hx)
    · exact List.mem_append_right _ (preT_sub_of_mem us t h x hx)

/-- Members of the discovery walk output lie in the reach set of its
queue, for any fuel. -/
theorem bfsNew_sub_reach : ∀ (fuel : Nat) (q : List STree) (x : SData),
    x ∈ bfsNew fuel q → x ∈ reachF q
  | 0, q, x => fun hx => by rw [bfsNew_zero] at hx; cases hx
  | fuel + 1, [], x => fun hx => by rw [bfsNew_nil] at hx; cases hx
  | fuel + 1, .mk d kids :: q, x => by
    intro hx
    rw [bfsNew_cons] at hx
    rw [reachF_cons]
    split at hx
    · next hd =>
      rcases List.mem_cons.mp hx with h | h
      · apply List.mem_append_left
        rw [reachT_eq, if_pos hd, h]
        exact List.mem_cons_self _ _
      · have hq := bfsNew_sub_reach fuel (q ++ kids.reverse) x h
        rw [reachF_append] at hq
        rcases List.mem_append.mp hq with h2 | h2
        · exact List.mem_append_right _ h2
        · apply List.mem_append_left
          rw [reachT_eq, if_pos hd]
          exact List.mem_cons_of_mem _ ((reachF_reverse_perm kids).mem_iff.mp h2)
    · next hd =>
      exact List.mem_append_right _ (bfsNew_sub_reach fuel q x hx)

/-- With adequate fuel the discovery walk output is the reach set of its
queue, as a multiset. -/
theorem bfsNew_perm : ∀ (fuel : Nat) (q : List STree), sizeF q < fuel →
    (bfsNew fuel q).Perm (reachF q)
  | 0, q, h => by cases h
  | fuel + 1, [], h => by rw [bfsNew_nil, reachF_nil]
  | fuel + 1, .mk d kids :: q, h => by
    rw [bfsNew_cons, reachF_cons]
    rw [sizeF_cons, sizeT_eq] at h
    split
    · next hd =>
      have hsz2 : sizeF (q ++ kids.reverse) < fuel := by
        rw [sizeF_append, sizeF_reverse]
        omega
      have ih := bfsNew_perm fuel (q ++ kids.reverse) hsz2
      rw [reachF_append] at ih
      rw [reachT_eq, if_pos hd, List.cons_append]
      apply List.Perm.cons
      exact ih.trans (((reachF_reverse_perm kids).append_left _).trans List.perm_append_comm)
    · next hd =>
      have hsz2 : sizeF q < fuel := by omega
      rw [reachT_eq, if_neg hd, List.nil_append]
      exact bfsNew_perm fuel q hsz2


/-! Selection and clearing in the outer new-nodes loop. -/

theorem findFirstNewT_eq (d : SData) (kids : List STree) :
    findFirstNewT (.mk d kids) =
      if d.cls.clNew then some (.mk d kids) else findFirstNewF kids := rfl

theorem findFirstNewF_nil : findFirstNewF [] = none := rfl

theorem findFirstNewF_cons (t : STree) (ts : List STree) :
    findFirstNewF (t :: ts) =
      match findFirstNewT t with
      | some r => some r
      | none => findFirstNewF ts := rfl

theorem clearReachT_eq (d : SData) (kids : List STree) :
    clearReachT (.mk d kids) =
      if d.cls.clNew then
        .mk { d with cls := { d.cls with clNew := false } } (clearReachF kids)
      else .mk d kids := rfl

theorem clearReachF_nil : clearReachF [] = [] := rfl

theorem clearReachF_cons (t : STree) (ts : List STree) :
    clearReachF (t :: ts) = clearReachT t :: clearReachF ts := rfl

theorem clearFirstNewT_eq (d : SData) (kids : List STree) :
    clearFirstNewT (.mk d kids) =
      if d.cls.clNew then clearReachT (.mk d kids) else .mk d (clearFirstNewF kids) := rfl

theorem clearFirstNewF_nil : clearFirstNewF [] = [] := rfl

theorem clearFirstNewF_cons (t : STree) (ts : List STree) :
    clearFirstNewF (t :: ts) =
      if hasPT (fun d => d.cls.clNew) t then clearFirstNewT t :: ts
      else t :: clearFirstNewF ts := rfl

theorem hasPT_eq (p : SData → Bool) (d : SData) (kids : List STree) :
    hasPT p (.mk d kids) = (p d || hasPF p kids) := rfl

theorem newLoop_zero (f : List STree) : newLoop 0 f = ([], f) := rfl

theorem newLoop_succ (fuel : Nat) (f : List STree) :
    newLoop (fuel + 1) f =
      match findFirstNewF f with
      | none => ([], f)
      | some sub =>
        (bfsNew (sizeT sub + 1) [sub] ++ (newLoop fuel (clearFirstNewF f)).1,
         (newLoop fuel (clearFirstNewF f)).2) := by
  show (match findFirstNewF f with
    | none => ([], f)
    | some sub => _) = _
  cases findFirstNewF f <;> rfl

mutual
theorem findFirstNewT_isSome : ∀ t : STree,
    (findFirstNewT t).isSome = hasPT (fun d => d.cls.clNew) t
  | .mk d kids => by
    rw [findFirstNewT_eq, hasPT_eq]
    cases hd : d.cls.clNew with
    | true => rfl
    | false =>
      rw [if_neg (by simp [hd]), Bool.false_or]
      exact findFirstNewF_isSome kids
theorem findFirstNewF_isSome : ∀ l : List STree,
    (findFirstNewF l).isSome = hasPF (fun d => d.cls.clNew) l
  | [] => rfl
  | t :: ts => by
    rw [findFirstNewF_cons]
    show _ = (hasPT (fun d => d.cls.clNew) t || hasPF (fun d => d.cls.clNew) ts)
    cases hft : findFirstNewT t with
    | some r =>
      have := findFirstNewT_isSome t
      rw [hft] at this
      rw [← this]
      rfl
    | none =>
      have := findFirstNewT_isSome t
      rw [hft] at this
      rw [← this]
      simp only [Option.isSome_none, Bool.false_or]
      exact findFirstNewF_isSome ts
end

mutual
theorem findFirstNewT_root_new : ∀ (t : STree) (sub : STree),
    findFirstNewT t = some sub → sub.data.cls.clNew = true
  | .mk d kids, sub => by
    rw [findFirstNewT_eq]
    cases hd : d.cls.clNew with
    | true =>
      rw [if_pos rfl]
      intro h
      cases h
      exact hd
    | false =>
      rw [if_neg (by simp)]
      exact findFirstNewF_root_new kids sub
theorem findFirstNewF_root_new : ∀ (l : List STree) (sub : STree),
    findFirstNewF l = some sub → sub.data.cls.clNew = true
  | [], sub => fun h => by cases h
  | t :: ts, sub => by
    rw [findFirstNewF_cons]
    cases hft : findFirstNewT t with
    | some r =>
      intro h
      cases h
      exact findFirstNewT_root_new t _ hft
    | none => exact findFirstNewF_root_new ts sub
end

theorem subT_trans : ∀ {a b c : STree}, SubT a b → SubT b c → SubT a c := by
  intro a b c hab hbc
  induction hbc with
  | refl => exact hab
  | kid hk _ ih => exact SubT.kid hk ih

mutual
theorem findFirstNewT_subT : ∀ (t : STree) (sub : STree),
    findFirstNewT t = some sub → SubT sub t
  | .mk d kids, sub => by
    rw [findFirstNewT_eq]
    cases hd : d.cls.clNew with
    | true =>
      rw [if_pos rfl]
      intro h
      cases h
      exact SubT.refl _
    | false =>
      rw [if_neg (by simp)]
      intro h
      obtain ⟨k, hk, hsub⟩ := findFirstNewF_subT kids sub h
      exact SubT.kid hk hsub
theorem findFirstNewF_subT : ∀ (l : List STree) (sub : STree),
    findFirstNewF l = some sub → ∃ k ∈ l, SubT sub k
  | [], sub => fun h => by cases h
  | t :: ts, sub => by
    rw [findFirstNewF_cons]
    cases hft : findFirstNewT t with
    | some r =>
      intro h
      cases h
      exact ⟨t, List.mem_cons_self _ _, findFirstNewT_subT t _ hft⟩
    | none =>
      intro h
      obtain ⟨k, hk, hsub⟩ := findFirstNewF_subT ts sub h
      exact ⟨k, List.mem_cons_of_mem _ hk, hsub⟩
end

theorem perm_shuffle {α : Type} (a b c d : List α) :
    ((a ++ b) ++ (c ++ d)).Perm ((a ++ c) ++ (b ++ d)) := by
  rw [List.append_assoc, List.append_assoc]
  apply List.Perm.append_left
  rw [← List.append_assoc, ← List.append_assoc]
  exact (List.perm_append_comm).append_right d

mutual
theorem clearReachT_filter : ∀ t : STree,
    ((preT t).filter (fun d => d.cls.clNew)).Perm
      (reachT t ++ (preT (clearReachT t)).filter (fun d => d.cls.clNew))
  | .mk d kids => by
    cases hd : d.cls.clNew with
    | false =>
      rw [reachT_eq, if_neg (by simp [hd]), clearReachT_eq, if_neg (by simp [hd]),
        List.nil_append]
    | true =>
      have h1 : List.filter (fun e => e.cls.clNew) (d :: preF kids) =
          d :: List.filter (fun e => e.cls.clNew) (preF kids) := by
        rw [List.filter_cons, if_pos (by simpa using hd)]
      have h2 : List.filter (fun e => e.cls.clNew)
          (({ d with cls := { d.cls with clNew := false } } : SData) :: preF (clearReachF kids)) =
          List.filter (fun e => e.cls.clNew) (preF (clearReachF kids)) := by
        rw [List.filter_cons, if_neg (by simp)]
      rw [reachT_eq, if_pos hd, clearReachT_eq, if_pos hd, preT_eq, preT_eq, h1, h2,
        List.cons_append]
      exact (clearReachF_filter kids).cons d
theorem clearReachF_filter : ∀ l : List STree,
    ((preF l).filter (fun d => d.cls.clNew)).Perm
      (reachF l ++ (preF (clearReachF l)).filter (fun d => d.cls.clNew))
  | [] => by rw [preF_nil, clearReachF_nil, reachF_nil, preF_nil]; rfl
  | t :: ts => by
    rw [preF_cons, clearReachF_cons, reachF_cons, preF_cons, List.filter_append,
      List.filter_append]
    exact ((clearReachT_filter t).append (clearReachF_filter ts)).trans
      (perm_shuffle _ _ _ _)
end

mutual
theorem clearFirstNewT_filter : ∀ (t : STree) (sub : STree), findFirstNewT t = some sub →
    ((preT t).filter (fun d => d.cls.clNew)).Perm
      (reachT sub ++ (preT (clearFirstNewT t)).filter (fun d => d.cls.clNew))
  | .mk d kids, sub => by
    rw [findFirstNewT_eq, clearFirstNewT_eq]
    cases hd : d.cls.clNew with
    | true =>
      rw [if_pos rfl, if_pos rfl]
      intro h
      cases h
      exact clearReachT_filter _
    | false =>
      rw [if_neg (by simp), if_neg (by simp)]
      intro h
      rw [preT_eq, preT_eq, List.filter_cons, List.filter_cons]
      simp only [hd, Bool.false_eq_true, if_false]
      exact clearFirstNewF_filter kids sub h
theorem clearFirstNewF_filter : ∀ (l : List STree) (sub : STree), findFirstNewF l = some sub →
    ((preF l).filter (fun d => d.cls.clNew)).Perm
      (reachT sub ++ (preF (clearFirstNewF l)).filter (fun d => d.cls.clNew))
  | [], sub => fun h => by cases h
  | t :: ts, sub => by
    rw [findFirstNewF_cons, clearFirstNewF_cons]
    cases hft : findFirstNewT t with
    | some r =>
      intro h
      cases h
      have hhas : hasPT (fun d => d.cls.clNew) t = true := by
        rw [← findFirstNewT_isSome, hft]
        rfl
      rw [if_pos hhas, preF_cons, preF_cons, List.filter_append, List.filter_append]
      have h1 := clearFirstNewT_filter t _ hft
      exact (h1.append_right _).trans (by rw [List.append_assoc])
    | none =>
      intro h
      have hhas : hasPT (fun d => d.cls.clNew) t = false := by
        rw [← findFirstNewT_isSome, hft]
        rfl
      rw [if_neg (by simp [hhas]), preF_cons, preF_cons, List.filter_append,
        List.filter_append]
      have h1 := clearFirstNewF_filter ts sub h
      refine (h1.append_left _).trans ?_
      rw [← List.append_assoc, ← List.append_assoc]
      exact (List.perm_append_comm).append_right _
end

theorem mapDataT_eq (f : SData → SData) (d : SData) (kids : List STree) :
    mapDataT f (.mk d kids) = .mk (f d) (mapDataF f kids) := rfl

theorem mapDataF_nil (f : SData → SData) : mapDataF f [] = [] := rfl

theorem mapDataF_cons (f : SData → SData) (t : STree) (ts : List STree) :
    mapDataF f (t :: ts) = mapDataT f t :: mapDataF f ts := rfl

mutual
theorem mapClear_clearReachT : ∀ t : STree,
    mapDataT (fun d => if d.cls.clNew then { d with cls := { d.cls with clNew := false } } else d)
      (clearReachT t) =
    mapDataT (fun d => if d.cls.clNew then { d with cls := { d.cls with clNew := false } } else d) t
  | .mk d kids => by
    cases hd : d.cls.clNew with
    | false => rw [clearReachT_eq, if_neg (by simp [hd])]
    | true =>
      rw [clearReachT_eq, if_pos hd, mapDataT_eq, mapDataT_eq]
      dsimp only
      rw [if_neg (by simp), if_pos hd, mapClear_clearReachF kids]
theorem mapClear_clearReachF : ∀ l : List STree,
    mapDataF (fun d => if d.cls.clNew then { d with cls := { d.cls with clNew := false } } else d)
      (clearReachF l) =
    mapDataF (fun d => if d.cls.clNew then { d with cls := { d.cls with clNew := false } } else d) l
  | [] => rfl
  | t :: ts => by
    rw [clearReachF_cons, mapDataF_cons, mapDataF_cons, mapClear_clearReachT t,
      mapClear_clearReachF ts]
end

mutual
theorem mapClear_clearFirstNewT : ∀ t : STree,
    mapDataT (fun d => if d.cls.clNew then { d with cls := { d.cls with clNew := false } } else d)
      (clearFirstNewT t) =
    mapDataT (fun d => if d.cls.clNew then { d with cls := { d.cls with clNew := false } } else d) t
  | .mk d kids => by
    cases hd : d.cls.clNew with
    | true => rw [clearFirstNewT_eq, if_pos hd, mapClear_clearReachT]
    | false =>
      rw [clearFirstNewT_eq, if_neg (by simp [hd]), mapDataT_eq, mapDataT_eq,
        mapClear_clearFirstNewF kids]
theorem mapClear_clearFirstNewF : ∀ l : List STree,
    mapDataF (fun d => if d.cls.clNew then { d with cls := { d.cls with clNew := false } } else d)
      (clearFirstNewF l) =
    mapDataF (fun d => if d.cls.clNew then { d with cls := { d.cls with clNew := false } } else d) l
  | [] => rfl
  | t :: ts => by
    rw [clearFirstNewF_cons]
    split
    · rw [mapDataF_cons, mapDataF_cons, mapClear_clearFirstNewT t]
    · rw [mapDataF_cons, mapDataF_cons, mapClear_clearFirstNewF ts]
end

theorem reachT_length_pos {sub : STree} (h : sub.data.cls.clNew = true) :
    1 ≤ (reachT sub).length := by
  cases sub with
  | mk d kids =>
    have hd : d.cls.clNew = true := h
    rw [reachT_eq, if_pos hd]
    simp

theorem clearFirstNewF_count_lt {f : List STree} {sub : STree}
    (h : findFirstNewF f = some sub) :
    countPF (fun d => d.cls.clNew) (clearFirstNewF f) < countPF (fun d => d.cls.clNew) f := by
  have hperm := clearFirstNewF_filter f sub h
  have hlen := hperm.length_eq
  rw [List.length_append] at hlen
  have hr := reachT_length_pos (findFirstNewF_root_new f sub h)
  rw [countPF_eq_countP, countPF_eq_countP, List.countP_eq_length_filter,
    List.countP_eq_length_filter]
  omega

/-- The outer new-nodes loop collects, as a multiset, exactly the cl-new
nodes of the document in their pre-extraction state, and its final document
has every cl-new flag cleared and nothing else changed. -/
theorem newLoop_spec : ∀ (fuel : Nat) (f : List STree),
    countPF (fun d => d.cls.clNew) f < fuel →
    ((newLoop fuel f).1).Perm ((preF f).filter (fun d => d.cls.clNew)) ∧
    (newLoop fuel f).2 =
      mapDataF (fun d => if d.cls.clNew then { d with cls := { d.cls with clNew := false } } else d) f
  | 0, f, h => by cases h
  | fuel + 1, f, h => by
    rw [newLoop_succ]
    cases hf : findFirstNewF f with
    | none =>
      dsimp only
      have hhas : hasPF (fun d => d.cls.clNew) f = false := by
        rw [← findFirstNewF_isSome, hf]
        rfl
      rw [hasPF_eq_any] at hhas
      have hall := List.any_eq_false.mp hhas
      constructor
      · rw [List.filter_eq_nil_iff.mpr (fun a ha => by simp [hall a ha])]
      · exact (mapDataF_congr_id f (fun d hd => by rw [if_neg (by simp [hall d hd])])).symm
    | some sub =>
      dsimp only
      have hcount : countPF (fun d => d.cls.clNew) (clearFirstNewF f) < fuel := by
        have := clearFirstNewF_count_lt hf
        omega
      obtain ⟨ih1, ih2⟩ := newLoop_spec fuel (clearFirstNewF f) hcount
      constructor
      · have hbfs : (bfsNew (sizeT sub + 1) [sub]).Perm (reachT sub) := by
          have hsz : sizeF [sub] < sizeT sub + 1 := by
            rw [sizeF_cons, sizeF_nil]
            omega
          have := bfsNew_perm (sizeT sub + 1) [sub] hsz
          rw [reachF_cons, reachF_nil, List.append_nil] at this
          exact this
        exact ((hbfs.append ih1).trans (clearFirstNewF_filter f sub hf).symm)
      · rw [ih2, mapClear_clearFirstNewF]

theorem preT_sublist_of_mem : ∀ (l : List STree) (t : STree), t ∈ l →
    (preT t).Sublist (preF l)
  | u :: us, t, ht => by
    rw [preF_cons]
    rcases List.mem_cons.mp ht with h | h
    · rw [h]
      exact List.sublist_append_left _ _
    · exact (preT_sublist_of_mem us t h).trans (List.sublist_append_right _ _)

theorem subT_preT_sublist : ∀ {s t : STree}, SubT s t → (preT s).Sublist (preT t) := by
  intro s t h
  induction h with
  | refl => exact List.Sublist.refl _
  | kid hk _ ih =>
    rw [preT_eq]
    exact (ih.trans (preT_sublist_of_mem _ _ hk)).trans (List.sublist_cons_self _ _)

mutual
theorem clearReachT_mem_new : ∀ (t : STree) (x : SData),
    x ∈ preT (clearReachT t) → x.cls.clNew = true → x ∈ preT t
  | .mk d kids, x => by
    cases hd : d.cls.clNew with
    | false =>
      rw [clearReachT_eq, if_neg (by simp [hd])]
      exact fun hx _ => hx
    | true =>
      rw [clearReachT_eq, if_pos hd, preT_eq, preT_eq]
      intro hx hnew
      rcases List.mem_cons.mp hx with hh | hh
      · rw [hh] at hnew
        simp at hnew
      · exact List.mem_cons_of_mem _ (clearReachF_mem_new kids x hh hnew)
theorem clearReachF_mem_new : ∀ (l : List STree) (x : SData),
    x ∈ preF (clearReachF l) → x.cls.clNew = true → x ∈ preF l
  | [], x => fun hx _ => by rw [clearReachF_nil] at hx; cases hx
  | t :: ts, x => by
    rw [clearReachF_cons, preF_cons, preF_cons]
    intro hx hnew
    rcases List.mem_append.mp hx with hh | hh
    · exact List.mem_append_left _ (clearReachT_mem_new t x hh hnew)
    · exact List.mem_append_right _ (clearReachF_mem_new ts x hh hnew)
end

mutual
theorem clearFirstNewT_mem_new : ∀ (t : STree) (x : SData),
    x ∈ preT (clearFirstNewT t) → x.cls.clNew = true → x ∈ preT t
  | .mk d kids, x => by
    cases hd : d.cls.clNew with
    | true =>
      rw [clearFirstNewT_eq, if_pos hd]
      exact clearReachT_mem_new _ x
    | false =>
      rw [clearFirstNewT_eq, if_neg (by simp [hd]), preT_eq, preT_eq]
      intro hx hnew
      rcases List.mem_cons.mp hx with hh | hh
      · exact hh ▸ List.mem_cons_self _ _
      · exact List.mem_cons_of_mem _ (clearFirstNewF_mem_new kids x hh hnew)
theorem clearFirstNewF_mem_new : ∀ (l : List STree) (x : SData),
    x ∈ preF (clearFirstNewF l) → x.cls.clNew = true → x ∈ preF l
  | [], x => fun hx _ => by rw [clearFirstNewF_nil] at hx; cases hx
  | t :: ts, x => by
    rw [clearFirstNewF_cons]
    split
    · rw [preF_cons, preF_cons]
      intro hx hnew
      rcases List.mem_append.mp hx with hh | hh
      · exact List.mem_append_left _ (clearFirstNewT_mem_new t x hh hnew)
      · exact List.mem_append_right _ hh
    · rw [preF_cons, preF_cons]
      intro hx hnew
      rcases List.mem_append.mp hx with hh | hh
      · exact List.mem_append_left _ hh
      · exact List.mem_append_right _ (clearFirstNewF_mem_new ts x hh hnew)
end

/-- Members of the new-nodes output lie in the pre-extraction document and
carry cl-new, for any fuel. -/
theorem newLoop_sub : ∀ (fuel : Nat) (f : List STree) (x : SData),
    x ∈ (newLoop fuel f).1 → x ∈ preF f ∧ x.cls.clNew = true
  | 0, f, x => fun hx => by rw [newLoop_zero] at hx; cases hx
  | fuel + 1, f, x => by
    rw [newLoop_succ]
    cases hf : findFirstNewF f with
    | none => exact fun hx => by cases hx
    | some sub =>
      dsimp only
      intro hx
      rcases List.mem_append.mp hx with hh | hh
      · have hr := bfsNew_sub_reach _ _ _ hh
        rw [reachF_cons, reachF_nil, List.append_nil] at hr
        have hnew := reachT_clNew sub x hr
        have hpre := reachT_sub_preT sub x hr
        obtain ⟨k, hk, hsubk⟩ := findFirstNewF_subT f sub hf
        exact ⟨(preT_sublist_of_mem f k hk).mem ((subT_preT_sublist hsubk).mem hpre), hnew⟩
      · obtain ⟨h1, h2⟩ := newLoop_sub fuel (clearFirstNewF f) x hh
        exact ⟨clearFirstNewF_mem_new f x h1 h2, h2⟩

/-! Characterisation of getMutationSummary in terms of the pre-extraction
document state. -/

theorem getMutationSummary_newNodes (s : ShadowDom) :
    (s.getMutationSummary).1.newNodes =
      (newLoop (countPF (fun d => d.cls.clNew) s.root + 1) s.root).1 := rfl

theorem getMutationSummary_movedNodes (s : ShadowDom) :
    (s.getMutationSummary).1.movedNodes =
      (tagLoop (fun d => d.cls.clMoved)
        (countPF (fun d => d.cls.clMoved)
          (newLoop (countPF (fun d => d.cls.clNew) s.root + 1) s.root).2 + 1)
        (newLoop (countPF (fun d => d.cls.clNew) s.root + 1) s.root).2).1 := rfl

theorem getMutationSummary_updatedNodes (s : ShadowDom) :
    (s.getMutationSummary).1.updatedNodes =
      (tagLoop (fun d => d.cls.clUpdated)
        (countPF (fun d => d.cls.clUpdated)
          (tagLoop (fun d => d.cls.clMoved)
            (countPF (fun d => d.cls.clMoved)
              (newLoop (countPF (fun d => d.cls.clNew) s.root + 1) s.root).2 + 1)
            (newLoop (countPF (fun d => d.cls.clNew) s.root + 1) s.root).2).2 + 1)
        (tagLoop (fun d => d.cls.clMoved)
          (countPF (fun d => d.cls.clMoved)
            (newLoop (countPF (fun d => d.cls.clNew) s.root + 1) s.root).2 + 1)
          (newLoop (countPF (fun d => d.cls.clNew) s.root + 1) s.root).2).2).1 := rfl

theorem getMutationSummary_removedNodes (s : ShadowDom) :
    (s.getMutationSummary).1.removedNodes =
      (s.removedKids.map STree.data).filter (fun d => !d.cls.clNew) := rfl

theorem getMutationSummary_root (s : ShadowDom) :
    (s.getMutationSummary).2.root =
      (tagLoop (fun d => d.cls.clUpdated)
        (countPF (fun d => d.cls.clUpdated)
          (tagLoop (fun d => d.cls.clMoved)
            (countPF (fun d => d.cls.clMoved)
              (newLoop (countPF (fun d => d.cls.clNew) s.root + 1) s.root).2 + 1)
            (newLoop (countPF (fun d => d.cls.clNew) s.root + 1) s.root).2).2 + 1)
        (tagLoop (fun d => d.cls.clMoved)
          (countPF (fun d => d.cls.clMoved)
            (newLoop (countPF (fun d => d.cls.clNew) s.root + 1) s.root).2 + 1)
          (newLoop (countPF (fun d => d.cls.clNew) s.root + 1) s.root).2).2).2 := rfl

theorem getMutationSummary_flags (s : ShadowDom) :
    (s.getMutationSummary).2.removedKids = s.removedKids ∧
    (s.getMutationSummary).2.removedAttached = s.removedAttached ∧
    (s.getMutationSummary).2.classifyNodes = s.classifyNodes ∧
    (s.getMutationSummary).2.shadowDocument = s.shadowDocument ∧
    (s.getMutationSummary).2.reports = s.reports := ⟨rfl, rfl, rfl, rfl, rfl⟩

/-- The summary lists, characterised against the pre-extraction document:
the new list is a permutation of the cl-new nodes; the moved list holds
exactly the cl-moved nodes in document order; the updated list holds, in
document order, exactly the nodes tagged cl-updated but not cl-moved; the
removed list holds the holding-area roots not tagged cl-new, in order. -/
theorem summary_lists (s : ShadowDom) :
    ((s.getMutationSummary).1.newNodes).Perm
      ((preF s.root).filter (fun d => d.cls.clNew)) ∧
    ((s.getMutationSummary).1.movedNodes).map (fun d => d.idx) =
      ((preF s.root).filter (fun d => d.cls.clMoved)).map (fun d => d.idx) ∧
    ((s.getMutationSummary).1.updatedNodes).map (fun d => d.idx) =
      ((preF s.root).filter (fun d => d.cls.clUpdated && !d.cls.clMoved)).map (fun d => d.idx) ∧
    (s.getMutationSummary).1.removedNodes =
      (s.removedKids.map STree.data).filter (fun d => !d.cls.clNew) := by
  have hN := newLoop_spec (countPF (fun d => d.cls.clNew) s.root + 1) s.root (Nat.lt_succ_self _)
  have hpre1 : preF (newLoop (countPF (fun d => d.cls.clNew) s.root + 1) s.root).2 =
      (preF s.root).map
        (fun d => if d.cls.clNew then { d with cls := { d.cls with clNew := false } } else d) := by
    rw [hN.2, preF_mapDataF]
  have hM := tagLoop_spec (p := fun d => d.cls.clMoved) (fun e => rfl)
    (countPF (fun d => d.cls.clMoved)
      (newLoop (countPF (fun d => d.cls.clNew) s.root + 1) s.root).2 + 1)
    (newLoop (countPF (fun d => d.cls.clNew) s.root + 1) s.root).2 (Nat.lt_succ_self _)
  have hpre2 : preF (tagLoop (fun d => d.cls.clMoved)
      (countPF (fun d => d.cls.clMoved)
        (newLoop (countPF (fun d => d.cls.clNew) s.root + 1) s.root).2 + 1)
      (newLoop (countPF (fun d => d.cls.clNew) s.root + 1) s.root).2).2 =
      (preF (newLoop (countPF (fun d => d.cls.clNew) s.root + 1) s.root).2).map
        (fun d => if d.cls.clMoved then { d with cls := Classes.nil } else d) := by
    rw [hM, preF_mapDataF]
  have hU := tagLoop_spec (p := fun d => d.cls.clUpdated) (fun e => rfl)
    (countPF (fun d => d.cls.clUpdated)
      (tagLoop (fun d => d.cls.clMoved)
        (countPF (fun d => d.cls.clMoved)
          (newLoop (countPF (fun d => d.cls.clNew) s.root + 1) s.root).2 + 1)
        (newLoop (countPF (fun d => d.cls.clNew) s.root + 1) s.root).2).2 + 1)
    (tagLoop (fun d => d.cls.clMoved)
      (countPF (fun d => d.cls.clMoved)
        (newLoop (countPF (fun d => d.cls.clNew) s.root + 1) s.root).2 + 1)
      (newLoop (countPF (fun d => d.cls.clNew) s.root + 1) s.root).2).2 (Nat.lt_succ_self _)
  refine ⟨?_, ?_, ?_, getMutationSummary_removedNodes s⟩
  · rw [getMutationSummary_newNodes]
    exact hN.1
  · rw [getMutationSummary_movedNodes, hM]
    show (List.filter (fun d : SData => d.cls.clMoved) _).map _ = _
    rw [hpre1, List.map_filter]
    have hcomm : ∀ d ∈ preF s.root,
        ((fun d => d.cls.clMoved) ∘
          (fun d => if d.cls.clNew then { d with cls := { d.cls with clNew := false } } else d)) d =
        d.cls.clMoved := by
      intro d _
      by_cases hd : d.cls.clNew = true <;> simp [hd]
    rw [List.filter_congr hcomm, List.map_map]
    apply List.map_congr_left
    intro d hd
    by_cases hn : d.cls.clNew = true <;> simp [hn]
  · rw [getMutationSummary_updatedNodes, hU]
    show (List.filter (fun d : SData => d.cls.clUpdated) _).map _ = _
    rw [hpre2, hpre1, List.map_map, List.map_filter]
    have hcomm : ∀ d ∈ preF s.root,
        ((fun d => d.cls.clUpdated) ∘
          ((fun d => if d.cls.clMoved then { d with cls := Classes.nil } else d) ∘
           (fun d => if d.cls.clNew then { d with cls := { d.cls with clNew := false } } else d))) d =
        (d.cls.clUpdated && !d.cls.clMoved) := by
      intro d _
      by_cases hm : d.cls.clMoved = true <;> by_cases hn : d.cls.clNew = true <;>
        simp [hm, hn, Classes.nil]
    rw [List.filter_congr hcomm, List.map_map]
    apply List.map_congr_left
    intro d hd
    by_cases hm : d.cls.clMoved = true <;> by_cases hn : d.cls.clNew = true <;> simp [hm, hn]

/-! Shape of applyMutationBatch in terms of the mid-batch state. -/

theorem applyMutationBatch_snd (s : ShadowDom) (w : LiveWorld) (ms : List MRecord) :
    (s.applyMutationBatch w ms).2 =
      (({ s.midBatch w ms with removedAttached := false }).getMutationSummary).1 := rfl

theorem applyMutationBatch_fst_root (s : ShadowDom) (w : LiveWorld) (ms : List MRecord) :
    ((s.applyMutationBatch w ms).1).root =
      finLoop (countPF (fun d => d.cls.clFinal)
          ((({ s.midBatch w ms with removedAttached := false }).getMutationSummary).2).root + 1)
        ((({ s.midBatch w ms with removedAttached := false }).getMutationSummary).2).root := rfl

theorem applyMutationBatch_fst_registry (s : ShadowDom) (w : LiveWorld) (ms : List MRecord) :
    ((s.applyMutationBatch w ms).1).registry = (s.midBatch w ms).registry := rfl

/-- After summary extraction the document carries no cl-new, cl-moved or
cl-updated tag: the three collection loops cleared every one. -/
theorem summary_root_cleared (s : ShadowDom) :
    ∀ d ∈ preF ((s.getMutationSummary).2.root),
      d.cls.clNew = false ∧ d.cls.clMoved = false ∧ d.cls.clUpdated = false := by
  have hN := newLoop_spec (countPF (fun d => d.cls.clNew) s.root + 1) s.root (Nat.lt_succ_self _)
  have hM := tagLoop_spec (p := fun d => d.cls.clMoved) (fun e => rfl)
    (countPF (fun d => d.cls.clMoved)
      (newLoop (countPF (fun d => d.cls.clNew) s.root + 1) s.root).2 + 1)
    (newLoop (countPF (fun d => d.cls.clNew) s.root + 1) s.root).2 (Nat.lt_succ_self _)
  have hU := tagLoop_spec (p := fun d => d.cls.clUpdated) (fun e => rfl)
    (countPF (fun d => d.cls.clUpdated)
      (tagLoop (fun d => d.cls.clMoved)
        (countPF (fun d => d.cls.clMoved)
          (newLoop (countPF (fun d => d.cls.clNew) s.root + 1) s.root).2 + 1)
        (newLoop (countPF (fun d => d.cls.clNew) s.root + 1) s.root).2).2 + 1)
    (tagLoop (fun d => d.cls.clMoved)
      (countPF (fun d => d.cls.clMoved)
        (newLoop (countPF (fun d => d.cls.clNew) s.root + 1) s.root).2 + 1)
      (newLoop (countPF (fun d => d.cls.clNew) s.root + 1) s.root).2).2 (Nat.lt_succ_self _)
  intro d hd
  rw [getMutationSummary_root, hU] at hd
  dsimp only at hd
  rw [hM] at hd
  dsimp only at hd
  rw [hN.2, preF_mapDataF, preF_mapDataF, preF_mapDataF, List.map_map, List.map_map] at hd
  obtain ⟨e, -, rfl⟩ := List.mem_map.mp hd
  rcases e with ⟨i, v, ly, ig, ⟨cf, cn, ct, cm, cu⟩⟩
  cases cn <;> cases cm <;> cases cu <;> simp [Function.comp, Classes.nil]

/-- C1: code bug. The claim promises mirrorsRealDom stays true after every
batch of records a real MutationObserver can deliver. The five records of
exBatchC1 are exactly what one synchronous script (append fresh P to body,
move tracked A into P, move A back under body) queues, with the live
document read at callback time; the batch leaves the mirror desynchronised
(mirrorsRealDom false) without any report: the move of A back out of P is
quashed because A's mirror parent P is tagged final, so A's mirror node
stays inside P while the live A is back under the body. -/
theorem C1_mirror_desync_on_move_out_of_final_subtree :
    exBase.mirrorsRealDom exLive0 = true ∧
    ((exBase.applyMutationBatch exLiveC1 exBatchC1).1).mirrorsRealDom exLiveC1 = false ∧
    ((exBase.applyMutationBatch exLiveC1 exBatchC1).1).reports = ([] : List String) :=
  ⟨by decide, by decide, by decide⟩

/-- C7: counterexample. After a batch that inserts one fresh node, that
node's mirror still carries the cl-new-top tag: a transient tag survives
batch cleanup. -/
theorem C7_counterexample :
    ((preF ((exBase.applyMutationBatch exLiveC7 exBatchC7).1).root).filter
        (fun d => d.cls.clNewTop)).map (fun d => d.idx) = [4] := by decide

/-- C7 (amended): when applyMutationBatch returns, the cl-new, cl-moved,
cl-updated and cl-final tags have been cleared from every document mirror
node, the holding area of removed nodes is empty and classification is
disabled; cl-new-top is not among the cleared tags (the summary loops clear
it only on nodes they visit as moved or updated, and the cl-final cleanup
loop does not touch it), so it can survive into later batches, as the
counterexample shows. -/
theorem C7_batch_cleanup (s : ShadowDom) (w : LiveWorld) (ms : List MRecord) :
    (∀ d ∈ preF ((s.applyMutationBatch w ms).1).root,
      d.cls.clNew = false ∧ d.cls.clMoved = false ∧ d.cls.clUpdated = false ∧
      d.cls.clFinal = false) ∧
    ((s.applyMutationBatch w ms).1).removedKids = [] ∧
    ((s.applyMutationBatch w ms).1).classifyNodes = false := by
  refine ⟨?_, rfl, rfl⟩
  intro d hd
  rw [applyMutationBatch_fst_root,
    finLoop_spec _ _ (Nat.lt_succ_self _), preF_mapDataF] at hd
  obtain ⟨e, he, rfl⟩ := List.mem_map.mp hd
  obtain ⟨h1, h2, h3⟩ := summary_root_cleared _ e he
  cases hcf : e.cls.clFinal
  · rw [if_neg (by simp)]
    exact ⟨h1, h2, h3, hcf⟩
  · rw [if_pos rfl]
    exact ⟨h1, h2, h3, rfl⟩

/-! Records whose nodes are all untracked are skipped without any effect:
the machinery behind claim C5. -/

mutual
theorem findLT_id : ∀ (v : NodeId) (t r : LTree), findLT v t = some r → r.id = v
  | v, .mk w kids, r => by
    intro h
    unfold findLT at h
    split at h
    · next hw => cases h; exact hw
    · exact findLF_id v kids r h
theorem findLF_id : ∀ (v : NodeId) (l : List LTree) (r : LTree), findLF v l = some r → r.id = v
  | _, [], _ => by intro h; cases h
  | v, t :: ts, r => by
    intro h
    unfold findLF at h
    split at h
    · next x heq => cases h; exact findLT_id v t _ heq
    · exact findLF_id v ts r h
end

theorem subtreeOf_id (w : LiveWorld) (v : NodeId) : (w.subtreeOf v).id = v := by
  unfold LiveWorld.subtreeOf
  cases h : findLF v (w.doc :: w.detached) with
  | none => rfl
  | some r => exact findLF_id v _ r h

theorem shouldProcess_untracked (s : ShadowDom) (v target : NodeId)
    (ha : lookupReg s.registry v = none)
    (ht : lookupReg s.registry target = none) :
    s.shouldProcessChildListMutation v target = false := by
  have h1 : s.getNodeIndex (some v) = none := ha
  have h2 : s.getNodeIndex (some target) = none := ht
  unfold ShadowDom.shouldProcessChildListMutation
  dsimp only
  rw [h1, h2]
  rfl

theorem applyInsert_untracked (s : ShadowDom) (sub : LTree) (target : NodeId)
    (next : Option NodeId)
    (ha : lookupReg s.registry sub.id = none)
    (ht : lookupReg s.registry target = none) :
    ShadowDom.applyInsert s sub target next false = s := by
  cases sub with
  | mk v kids =>
    have ha' : lookupReg s.registry v = none := ha
    unfold ShadowDom.applyInsert
    dsimp only
    rw [shouldProcess_untracked s v target ha' ht]
    simp

theorem processAdded_untracked : ∀ (added : List NodeId) (s : ShadowDom) (w : LiveWorld)
    (target : NodeId) (recNext : Option NodeId),
    lookupReg s.registry target = none →
    (∀ a ∈ added, lookupReg s.registry a = none) →
    ShadowDom.processAdded s w target added recNext = s
  | [], _, _, _, _, _, _ => rfl
  | [a], s, w, t, rn, ht, ha => by
    unfold ShadowDom.processAdded
    exact applyInsert_untracked s _ t rn
      ((subtreeOf_id w a).symm ▸ ha a (List.mem_cons_self a [])) ht
  | a :: b :: rest, s, w, t, rn, ht, ha => by
    unfold ShadowDom.processAdded
    rw [processAdded_untracked (b :: rest) s w t rn ht
      (fun x hx => ha x (List.mem_cons_of_mem a hx))]
    exact applyInsert_untracked s _ t _
      ((subtreeOf_id w a).symm ▸ ha a (List.mem_cons_self a _)) ht

theorem applyRemove_untracked (s : ShadowDom) (r target : NodeId)
    (hr : lookupReg s.registry r = none) : s.applyRemove r target = s := by
  have h1 : s.getNodeIndex (some r) = none := hr
  unfold ShadowDom.applyRemove
  rw [h1]

theorem processRemoved_untracked : ∀ (removed : List NodeId) (s : ShadowDom) (target : NodeId),
    (∀ r ∈ removed, lookupReg s.registry r = none) →
    ShadowDom.processRemoved s target removed = s
  | [], _, _, _ => rfl
  | r :: rest, s, t, hr => by
    unfold ShadowDom.processRemoved
    rw [applyRemove_untracked s r t (hr r (List.mem_cons_self r _))]
    exact processRemoved_untracked rest s t (fun x hx => hr x (List.mem_cons_of_mem r hx))

theorem applyRecord_untracked (s : ShadowDom) (w : LiveWorld) (target : NodeId)
    (added removed : List NodeId) (prev next : Option NodeId)
    (ht : lookupReg s.registry target = none)
    (hadded : ∀ a ∈ added, lookupReg s.registry a = none)
    (hremoved : ∀ r ∈ removed, lookupReg s.registry r = none) :
    s.applyRecord w (.childList target added removed prev next) = s := by
  show (ShadowDom.processAdded s w target added next).processRemoved target removed = s
  rw [processAdded_untracked added s w target next ht hadded]
  exact processRemoved_untracked removed s target hremoved

/-- C5: counterexample. The first record of exBatchC5 names the structural
parent 99, which has no mirror node; the spec demands a report and an
aborted batch with no summary. Instead the batch completes with an empty
report log and a summary that reflects the remaining record (the fresh node
40 is reported new). -/
theorem C5_counterexample :
    ((exBase.applyMutationBatch exLiveC5 exBatchC5).2.newNodes).map (fun d => d.idx) = [4] ∧
    ((exBase.applyMutationBatch exLiveC5 exBatchC5).1).reports = ([] : List String) :=
  ⟨by decide, by decide⟩

/-- C5 (amended): a childList record whose structural parent has no mirror
node and whose added and removed nodes are all untracked is skipped
silently: it leaves the engine state unchanged (no report, no abort) and
the batch behaves exactly as if the record were absent, the remaining
records being processed normally. -/
theorem C5_untracked_parent_record_skipped_silently (s : ShadowDom) (w : LiveWorld)
    (target : NodeId) (added removed : List NodeId) (prev next : Option NodeId)
    (ms : List MRecord)
    (ht : lookupReg s.registry target = none)
    (hadded : ∀ a ∈ added, lookupReg s.registry a = none)
    (hremoved : ∀ r ∈ removed, lookupReg s.registry r = none) :
    s.applyRecord w (.childList target added removed prev next) = s ∧
    s.applyMutationBatch w (.childList target added removed prev next :: ms) =
      s.applyMutationBatch w ms := by
  refine ⟨applyRecord_untracked s w target added removed prev next ht hadded hremoved, ?_⟩
  have h0 : ShadowDom.processRecords { s with removedAttached := true, classifyNodes := true } w
      (.childList target added removed prev next :: ms) =
      ShadowDom.processRecords { s with removedAttached := true, classifyNodes := true } w ms := by
    show ShadowDom.processRecords
      (({ s with removedAttached := true, classifyNodes := true } : ShadowDom).applyRecord w
        (.childList target added removed prev next)) w ms = _
    rw [applyRecord_untracked { s with removedAttached := true, classifyNodes := true }
      w target added removed prev next ht hadded hremoved]
  unfold ShadowDom.applyMutationBatch
  dsimp only
  rw [h0]

/-- C5 witness: the amended theorem applied to the counterexample input. -/
theorem C5_witness :
    exBase.applyRecord exLiveC5 (.childList 99 [98] [] none none) = exBase ∧
    exBase.applyMutationBatch exLiveC5
        (.childList 99 [98] [] none none :: [.childList 1 [40] [] (some 3) none]) =
      exBase.applyMutationBatch exLiveC5 [.childList 1 [40] [] (some 3) none] :=
  C5_untracked_parent_record_skipped_silently exBase exLiveC5 99 [98] [] none none
    [.childList 1 [40] [] (some 3) none] (by decide) (by decide) (by decide)

/-- C6: counterexample. In exBatchC6 the attribute records update B(3)
before A(2), then the fresh node N(20, index 4) is inserted and updated.
The updated list comes out in document order [2, 3, 4], not tagging order
(which would start with 3), and index 4 appears in both the new list and
the updated list of the same summary. -/
theorem C6_counterexample :
    ((exBase.applyMutationBatch exLiveC6 exBatchC6).2.updatedNodes).map (fun d => d.idx) =
      [2, 3, 4] ∧
    ((exBase.applyMutationBatch exLiveC6 exBatchC6).2.newNodes).map (fun d => d.idx) = [4] :=
  ⟨by decide, by decide⟩

/-- C6 (amended): the updated list of a summary holds, in document order
(not tagging order), exactly the mirror nodes still tagged cl-updated that
are not also tagged cl-moved; under distinct mirror indices no index
appears in both the moved and updated lists, but a node tagged both new and
updated is reported in both the new and updated lists (the new-nodes pass
clears only cl-new), as the counterexample shows. -/
theorem C6_updated_doc_order_excludes_moved_only (s : ShadowDom)
    (hnd : ((preF s.root).map (fun d => d.idx)).Nodup) :
    ((s.getMutationSummary).1.updatedNodes).map (fun d => d.idx) =
      ((preF s.root).filter (fun d => d.cls.clUpdated && !d.cls.clMoved)).map
        (fun d => d.idx) ∧
    ∀ i ∈ ((s.getMutationSummary).1.movedNodes).map (fun d => d.idx),
      i ∉ ((s.getMutationSummary).1.updatedNodes).map (fun d => d.idx) := by
  obtain ⟨-, hM, hU, -⟩ := summary_lists s
  refine ⟨hU, ?_⟩
  intro i hiM hiU
  rw [hM] at hiM
  rw [hU] at hiU
  obtain ⟨d, hd, hdi⟩ := List.mem_map.mp hiM
  obtain ⟨e, he, hei⟩ := List.mem_map.mp hiU
  obtain ⟨hd1, hd2⟩ := List.mem_filter.mp hd
  obtain ⟨he1, he2⟩ := List.mem_filter.mp he
  have hde : d = e := List.inj_on_of_nodup_map hnd hd1 he1 (by rw [hdi, hei])
  rw [hde] at hd2
  simp only [Bool.and_eq_true, Bool.not_eq_true'] at he2
  rw [he2.2] at hd2
  cases hd2

/-- C6 witness: the amended theorem applied to the counterexample's
mid-batch document state. -/
theorem C6_witness :
    ((((exBase.midBatch exLiveC6 exBatchC6).getMutationSummary).1.updatedNodes).map
        (fun d => d.idx) =
      ((preF (exBase.midBatch exLiveC6 exBatchC6).root).filter
          (fun d => d.cls.clUpdated && !d.cls.clMoved)).map (fun d => d.idx)) ∧
    (∀ i ∈ (((exBase.midBatch exLiveC6 exBatchC6).getMutationSummary).1.movedNodes).map
        (fun d => d.idx),
      i ∉ (((exBase.midBatch exLiveC6 exBatchC6).getMutationSummary).1.updatedNodes).map
        (fun d => d.idx)) :=
  C6_updated_doc_order_excludes_moved_only (exBase.midBatch exLiveC6 exBatchC6) (by decide)

/-- C2: the cancellation law. If after record processing the node's mirror
sits in the holding area still tagged cl-new (d its data), its index occurs
nowhere in the document forest, and every holding-area root with that index
is tagged cl-new, then the summary of the batch lists the index neither
among the new nodes (they are drawn from the document forest only, the
holding area having been detached) nor among the removed nodes (the removed
list skips cl-new roots), and under a well-formed registry the index stays
bound to the same live node across every later operation and batch, never
resolving for any other node. -/
theorem C2_cancellation_within_batch (s : ShadowDom) (w : LiveWorld) (ms : List MRecord)
    (d : SData)
    (hhold : d ∈ ((s.midBatch w ms).removedKids).map STree.data)
    (hnew : d.cls.clNew = true)
    (hroot : ∀ e ∈ preF (s.midBatch w ms).root, e.idx ≠ d.idx)
    (hhold2 : ∀ e ∈ ((s.midBatch w ms).removedKids).map STree.data,
      e.idx = d.idx → e.cls.clNew = true)
    (hwf : RegWF s)
    (hreg : lookupReg (s.midBatch w ms).registry d.live = some d.idx) :
    (∀ x ∈ (s.applyMutationBatch w ms).2.newNodes, x.idx ≠ d.idx) ∧
    (∀ x ∈ (s.applyMutationBatch w ms).2.removedNodes, x.idx ≠ d.idx) ∧
    ∀ ops : List EngineOp,
      lookupReg (((s.applyMutationBatch w ms).1).runEngineOps ops).registry d.live =
        some d.idx ∧
      ∀ u, lookupReg (((s.applyMutationBatch w ms).1).runEngineOps ops).registry u =
        some d.idx → u = d.live := by
  obtain ⟨hN, -, -, hR⟩ := summary_lists { s.midBatch w ms with removedAttached := false }
  refine ⟨?_, ?_, ?_⟩
  · intro x hx
    rw [applyMutationBatch_snd] at hx
    have hx3 := List.mem_filter.mp ((hN.mem_iff).mp hx)
    exact hroot x hx3.1
  · intro x hx hxd
    rw [applyMutationBatch_snd, hR] at hx
    obtain ⟨hx1, hx2⟩ := List.mem_filter.mp hx
    rw [hhold2 x hx1 hxd] at hx2
    cases hx2
  · intro ops
    have hbatch : RegStep s ((s.applyMutationBatch w ms).1) := regStep_applyMutationBatch s w ms
    have hops := regStep_runEngineOps ops ((s.applyMutationBatch w ms).1)
    have hreg' : lookupReg ((s.applyMutationBatch w ms).1).registry d.live = some d.idx := by
      rw [applyMutationBatch_fst_registry]
      exact hreg
    have hv := hops.1.2.1 d.live d.idx hreg'
    have hwff := hops.2 (hbatch.2 hwf)
    exact ⟨hv, fun u hu => hwff.2 u d.live d.idx hu hv⟩

/-- C2 witness: the node T(50) of exBatchC2 is inserted and removed within
one batch; its mirror data is the holding root with index 4. -/
theorem C2_witness :
    (∀ x ∈ (exBase.applyMutationBatch exLiveC2 exBatchC2).2.newNodes, x.idx ≠ 4) ∧
    (∀ x ∈ (exBase.applyMutationBatch exLiveC2 exBatchC2).2.removedNodes, x.idx ≠ 4) ∧
    ∀ ops : List EngineOp,
      lookupReg (((exBase.applyMutationBatch exLiveC2 exBatchC2).1).runEngineOps
        ops).registry 50 = some 4 ∧
      ∀ u, lookupReg (((exBase.applyMutationBatch exLiveC2 exBatchC2).1).runEngineOps
        ops).registry u = some 4 → u = 50 :=
  C2_cancellation_within_batch exBase exLiveC2 exBatchC2
    ⟨4, 50, none, false, ⟨true, true, true, false, false⟩⟩
    (by decide) (by decide) (by decide) (by decide)
    (regWF_of_pairs exBase (by decide) (by decide)) (by decide)

/-! Quashing of records whose structural parent mirror is tagged cl-final:
the machinery behind claim C4. -/

theorem shouldProcess_final_parent (s : ShadowDom) (v target : NodeId) (i : Nat) (pd : SData)
    (hi : lookupReg s.registry v = some i)
    (hp : s.shadowParent i = some (some pd))
    (hfin : pd.cls.clFinal = true) :
    s.shouldProcessChildListMutation v target = false := by
  have hi' : s.getNodeIndex (some v) = some i := hi
  unfold ShadowDom.shouldProcessChildListMutation
  dsimp only
  rw [hi']
  dsimp only
  rw [hp]
  dsimp only
  rw [hfin]
  rfl

theorem applyInsert_final_parent_quash (s : ShadowDom) (sub : LTree) (target : NodeId)
    (next : Option NodeId) (i : Nat) (pd : SData)
    (hi : lookupReg s.registry sub.id = some i)
    (hp : s.shadowParent i = some (some pd))
    (hfin : pd.cls.clFinal = true) :
    ShadowDom.applyInsert s sub target next false = s := by
  cases sub with
  | mk v kids =>
    have hi' : lookupReg s.registry v = some i := hi
    unfold ShadowDom.applyInsert
    dsimp only
    rw [shouldProcess_final_parent s v target i pd hi' hp hfin]
    simp

theorem applyRemove_final_parent_quash (s : ShadowDom) (a target : NodeId) (i : Nat) (pd : SData)
    (hi : lookupReg s.registry a = some i)
    (hp : s.shadowParent i = some (some pd))
    (hfin : pd.cls.clFinal = true) :
    s.applyRemove a target = s := by
  have hi' : s.getNodeIndex (some a) = some i := hi
  unfold ShadowDom.applyRemove
  rw [hi']
  dsimp only
  rw [shouldProcess_final_parent s a target i pd hi hp hfin]
  simp

set_option maxHeartbeats 2000000 in
theorem exC4mid_eq : exBase.midBatch exLiveC4 exBatchC4head = exC4mid := rfl

/-- C4: when a node's mirror parent is tagged cl-final (as happens to every
node created by recursive discovery inside an inserted subtree), a later
childList record of the same batch claiming to insert or remove that node
directly is quashed: applyRecord returns the state unchanged. On the
concrete C4 batch (insert P(60) whose discovery creates C(61), then a stale
insert of C and a stale remove of C) the summary reports exactly one new
entry for C (index 5) and no removal entry. -/
theorem C4_final_subtree_quashes_stale_records (s : ShadowDom) (w : LiveWorld)
    (target a : NodeId) (prev next : Option NodeId) (i : Nat) (pd : SData)
    (hi : lookupReg s.registry a = some i)
    (hp : s.shadowParent i = some (some pd))
    (hfin : pd.cls.clFinal = true) :
    s.applyRecord w (.childList target [a] [] prev next) = s ∧
    s.applyRecord w (.childList target [] [a] prev next) = s ∧
    ((exBase.applyMutationBatch exLiveC4 exBatchC4full).2.newNodes).map (fun d => d.idx) =
      [4, 5] ∧
    (exBase.applyMutationBatch exLiveC4 exBatchC4full).2.removedNodes = [] := by
  have hq1 : ∀ t : ShadowDom, t = exC4mid →
      t.applyRecord exLiveC4 (.childList 60 [61] [] none none) = t := by
    intro t ht
    subst ht
    show (ShadowDom.processAdded exC4mid exLiveC4 60 [61] none).processRemoved 60 [] = exC4mid
    rw [show ShadowDom.processAdded exC4mid exLiveC4 60 [61] none =
      ShadowDom.applyInsert exC4mid (exLiveC4.subtreeOf 61) 60 none false from rfl]
    rw [applyInsert_final_parent_quash exC4mid (exLiveC4.subtreeOf 61) 60 none 5
      ⟨4, 60, none, false, ⟨true, true, true, false, false⟩⟩
      (by rw [subtreeOf_id]; decide) (by decide) rfl]
    rfl
  have hq2 : ∀ t : ShadowDom, t = exC4mid →
      t.applyRecord exLiveC4 (.childList 60 [] [61] none none) = t := by
    intro t ht
    subst ht
    show ShadowDom.processRemoved exC4mid 60 [61] = exC4mid
    unfold ShadowDom.processRemoved
    rw [applyRemove_final_parent_quash exC4mid 61 60 5
      ⟨4, 60, none, false, ⟨true, true, true, false, false⟩⟩ (by decide) (by decide) rfl]
    rfl
  have hmid : exBase.midBatch exLiveC4 exBatchC4full = exC4mid := by
    show ((exBase.midBatch exLiveC4 exBatchC4head).applyRecord exLiveC4
        (.childList 60 [61] [] none none)).applyRecord exLiveC4
        (.childList 60 [] [61] none none) = exC4mid
    rw [exC4mid_eq, hq1 exC4mid rfl, hq2 exC4mid rfl]
  refine ⟨?_, ?_, ?_, ?_⟩
  · show (ShadowDom.processAdded s w target [a] next).processRemoved target [] = s
    rw [show ShadowDom.processAdded s w target [a] next =
      ShadowDom.applyInsert s (w.subtreeOf a) target next false from rfl]
    rw [applyInsert_final_parent_quash s (w.subtreeOf a) target next i pd
      (by rw [subtreeOf_id]; exact hi) hp hfin]
    rfl
  · show ShadowDom.processRemoved s target [a] = s
    unfold ShadowDom.processRemoved
    rw [applyRemove_final_parent_quash s a target i pd hi hp hfin]
    rfl
  · rw [applyMutationBatch_snd, hmid]
    decide
  · rw [applyMutationBatch_snd, hmid]
    decide

/-- C4 witness: the quash theorem applied to the mid-batch state after the
genuine insert of P(60), with C(61) carrying index 5 and its mirror parent
P (index 4) tagged cl-final. -/
theorem C4_witness :
    exC4mid.applyRecord exLiveC4 (.childList 60 [61] [] none none) = exC4mid ∧
    exC4mid.applyRecord exLiveC4 (.childList 60 [] [61] none none) = exC4mid ∧
    ((exBase.applyMutationBatch exLiveC4 exBatchC4full).2.newNodes).map (fun d => d.idx) =
      [4, 5] ∧
    (exBase.applyMutationBatch exLiveC4 exBatchC4full).2.removedNodes = [] :=
  C4_final_subtree_quashes_stale_records exC4mid exLiveC4 60 61 none none 5
    ⟨4, 60, none, false, ⟨true, true, true, false, false⟩⟩
    (by decide) (by decide) rfl

theorem applyMutationBatch_fst (s : ShadowDom) (w : LiveWorld) (ms : List MRecord) :
    (s.applyMutationBatch w ms).1 =
      { (({ s.midBatch w ms with removedAttached := false }).getMutationSummary).2 with
        root := finLoop (countPF (fun d => d.cls.clFinal)
            ((({ s.midBatch w ms with removedAttached := false }).getMutationSummary).2).root + 1)
          ((({ s.midBatch w ms with removedAttached := false }).getMutationSummary).2).root,
        removedKids := [], classifyNodes := false } := rfl

set_option maxHeartbeats 2000000 in
theorem exC8mid_eq : exBase.midBatch exLiveC8 exBatchC8 = exC8mid := rfl

set_option maxHeartbeats 2000000 in
theorem exC8bmid_eq : exBase.midBatch exLiveC8b exBatchC8b = exC8bmid := rfl

/-- applyInsert on a registry-known added node is exactly the move
operation: it changes neither the registry nor nextIndex (the node keeps
its index), and when the record is not quashed it delegates to
moveShadowNode with the node's existing index. -/
theorem applyInsert_known_dispatch (s : ShadowDom) (v : NodeId) (kids : List LTree)
    (target : NodeId) (next : Option NodeId) (i : Nat)
    (hi : lookupReg s.registry v = some i) :
    (ShadowDom.applyInsert s (.mk v kids) target next false).registry = s.registry ∧
    (ShadowDom.applyInsert s (.mk v kids) target next false).nextIndex = s.nextIndex ∧
    (s.shouldProcessChildListMutation v target = true →
      ShadowDom.applyInsert s (.mk v kids) target next false =
        s.moveShadowNode (some i) (s.getNodeIndex (some target)) (s.getNodeIndex next)) := by
  have hi' : s.getNodeIndex (some v) = some i := hi
  unfold ShadowDom.applyInsert
  dsimp only
  cases hsp : s.shouldProcessChildListMutation v target with
  | false =>
    rw [if_neg (by simp)]
    exact ⟨rfl, rfl, fun hc => by cases hc⟩
  | true =>
    rw [if_pos (by simp), hi']
    dsimp only
    exact ⟨moveShadowNode_registry s _ _ _, moveShadowNode_nextIndex s _ _ _, fun _ => rfl⟩

/-- C8: for a registry-known added node, record processing relocates the
existing mirror node through moveShadowNode while preserving its index
(registry and nextIndex unchanged, delegation to the move operation). On
the concrete scenarios: moving A(2) under the not-new B(3) reports moved
index 2 with cl-moved and cl-new-top set, leaves A as B's only child with
index 2 still bound, allocates no index, and the mirror matches the live
tree; moving A under the freshly inserted P(70) (tagged new) reports moved
index 2 with cl-moved set and cl-new-top removed, again as P's child and
consistent with the live tree. -/
theorem C8_known_node_move_stability (s : ShadowDom) (w : LiveWorld)
    (target a : NodeId) (next : Option NodeId) (i : Nat)
    (hi : lookupReg s.registry a = some i) :
    ((ShadowDom.applyInsert s (w.subtreeOf a) target next false).registry = s.registry ∧
     (ShadowDom.applyInsert s (w.subtreeOf a) target next false).nextIndex = s.nextIndex ∧
     (s.shouldProcessChildListMutation a target = true →
       ShadowDom.applyInsert s (w.subtreeOf a) target next false =
         s.moveShadowNode (some i) (s.getNodeIndex (some target)) (s.getNodeIndex next))) ∧
    ((exBase.applyMutationBatch exLiveC8 exBatchC8).2.movedNodes =
        [⟨2, 2, none, false, ⟨false, false, true, true, false⟩⟩] ∧
      childIdxsOf 3 ((exBase.applyMutationBatch exLiveC8 exBatchC8).1).root = some [2] ∧
      lookupReg ((exBase.applyMutationBatch exLiveC8 exBatchC8).1).registry 2 = some 2 ∧
      ((exBase.applyMutationBatch exLiveC8 exBatchC8).1).nextIndex = 4 ∧
      ((exBase.applyMutationBatch exLiveC8 exBatchC8).1).mirrorsRealDom exLiveC8 = true) ∧
    (((exBase.applyMutationBatch exLiveC8b exBatchC8b).2.movedNodes).map
        (fun d => (d.idx, d.cls.clMoved, d.cls.clNewTop)) = [(2, true, false)] ∧
      childIdxsOf 4 ((exBase.applyMutationBatch exLiveC8b exBatchC8b).1).root = some [2] ∧
      ((exBase.applyMutationBatch exLiveC8b exBatchC8b).1).mirrorsRealDom exLiveC8b = true) := by
  refine ⟨?_, ⟨?_, ?_, ?_, ?_, ?_⟩, ⟨?_, ?_, ?_⟩⟩
  · cases hsub : w.subtreeOf a with
    | mk v kids =>
      have hv : v = a := by
        have hid := subtreeOf_id w a
        rw [hsub] at hid
        exact hid
      subst hv
      exact applyInsert_known_dispatch s v kids target next i hi
  · rw [applyMutationBatch_snd, exC8mid_eq]
    decide
  · rw [applyMutationBatch_fst, exC8mid_eq]
    decide
  · rw [applyMutationBatch_fst, exC8mid_eq]
    decide
  · rw [applyMutationBatch_fst, exC8mid_eq]
    decide
  · rw [applyMutationBatch_fst, exC8mid_eq]
    decide
  · rw [applyMutationBatch_snd, exC8bmid_eq]
    decide
  · rw [applyMutationBatch_fst, exC8bmid_eq]
    decide
  · rw [applyMutationBatch_fst, exC8bmid_eq]
    decide

/-- C8 witness: the move-stability theorem at the base state, moving the
tracked node A(2) under B(3). -/
theorem C8_witness :
    ((ShadowDom.applyInsert exBase (exLiveC8.subtreeOf 2) 3 none false).registry =
        exBase.registry ∧
     (ShadowDom.applyInsert exBase (exLiveC8.subtreeOf 2) 3 none false).nextIndex =
        exBase.nextIndex ∧
     (exBase.shouldProcessChildListMutation 2 3 = true →
       ShadowDom.applyInsert exBase (exLiveC8.subtreeOf 2) 3 none false =
         exBase.moveShadowNode (some 2) (exBase.getNodeIndex (some 3))
           (exBase.getNodeIndex none))) ∧
    ((exBase.applyMutationBatch exLiveC8 exBatchC8).2.movedNodes =
        [⟨2, 2, none, false, ⟨false, false, true, true, false⟩⟩] ∧
      childIdxsOf 3 ((exBase.applyMutationBatch exLiveC8 exBatchC8).1).root = some [2] ∧
      lookupReg ((exBase.applyMutationBatch exLiveC8 exBatchC8).1).registry 2 = some 2 ∧
      ((exBase.applyMutationBatch exLiveC8 exBatchC8).1).nextIndex = 4 ∧
      ((exBase.applyMutationBatch exLiveC8 exBatchC8).1).mirrorsRealDom exLiveC8 = true) ∧
    (((exBase.applyMutationBatch exLiveC8b exBatchC8b).2.movedNodes).map
        (fun d => (d.idx, d.cls.clMoved, d.cls.clNewTop)) = [(2, true, false)] ∧
      childIdxsOf 4 ((exBase.applyMutationBatch exLiveC8b exBatchC8b).1).root = some [2] ∧
      ((exBase.applyMutationBatch exLiveC8b exBatchC8b).1).mirrorsRealDom exLiveC8b = true) :=
  C8_known_node_move_stability exBase exLiveC8 3 2 none 2 (by decide)

theorem mem_preF_insertKid (nw : STree) (anchor : Option Nat) :
    ∀ (l : List STree) (x : SData),
    x ∈ preF (insertKid nw anchor l) → x ∈ preF l ∨ x ∈ preT nw
  | [], x => by
    rw [show insertKid nw anchor [] = [nw] from rfl, preF_cons, preF_nil, List.append_nil]
    exact fun h => Or.inr h
  | k :: ks, x => by
    unfold insertKid
    split
    · rw [preF_cons]
      intro hx
      rcases List.mem_append.mp hx with h | h
      · exact Or.inr h
      · exact Or.inl h
    · rw [preF_cons, preF_cons]
      intro hx
      rcases List.mem_append.mp hx with h | h
      · exact Or.inl (List.mem_append_left _ h)
      · rcases mem_preF_insertKid nw anchor ks x h with h2 | h2
        · exact Or.inl (List.mem_append_right _ h2)
        · exact Or.inr h2

mutual
theorem mem_preT_insT (p : Nat) (nw : STree) (anchor : Option Nat) :
    ∀ (t : STree) (x : SData),
    x ∈ preT (insT p nw anchor t) → x ∈ preT t ∨ x ∈ preT nw
  | .mk d kids, x => by
    unfold insT
    split
    · rw [preT_eq, preT_eq]
      intro hx
      rcases List.mem_cons.mp hx with h | h
      · exact Or.inl (h ▸ List.mem_cons_self _ _)
      · rcases mem_preF_insertKid nw anchor kids x h with h2 | h2
        · exact Or.inl (List.mem_cons_of_mem _ h2)
        · exact Or.inr h2
    · rw [preT_eq, preT_eq]
      intro hx
      rcases List.mem_cons.mp hx with h | h
      · exact Or.inl (h ▸ List.mem_cons_self _ _)
      · rcases mem_preF_insF p nw anchor kids x h with h2 | h2
        · exact Or.inl (List.mem_cons_of_mem _ h2)
        · exact Or.inr h2
theorem mem_preF_insF (p : Nat) (nw : STree) (anchor : Option Nat) :
    ∀ (l : List STree) (x : SData),
    x ∈ preF (insF p nw anchor l) → x ∈ preF l ∨ x ∈ preT nw
  | [], x => fun hx => by rw [show insF p nw anchor [] = [] from rfl] at hx; cases hx
  | t :: ts, x => by
    rw [show insF p nw anchor (t :: ts) = insT p nw anchor t :: insF p nw anchor ts from rfl,
      preF_cons, preF_cons]
    intro hx
    rcases List.mem_append.mp hx with h | h
    · rcases mem_preT_insT p nw anchor t x h with h2 | h2
      · exact Or.inl (List.mem_append_left _ h2)
      · exact Or.inr h2
    · rcases mem_preF_insF p nw anchor ts x h with h2 | h2
      · exact Or.inl (List.mem_append_right _ h2)
      · exact Or.inr h2
end

mutual
theorem mem_detachT (i : Nat) : ∀ (t : STree) (x : SData),
    (x ∈ preT (detachT i t).1 → x ∈ preT t) ∧
    (∀ r, (detachT i t).2 = some r → x ∈ preT r → x ∈ preT t)
  | .mk d kids, x => by
    rw [show detachT i (.mk d kids) = (.mk d (detachF i kids).1, (detachF i kids).2) from rfl]
    constructor
    · rw [preT_eq, preT_eq]
      intro hx
      rcases List.mem_cons.mp hx with h | h
      · exact h ▸ List.mem_cons_self _ _
      · exact List.mem_cons_of_mem _ ((mem_detachF i kids x).1 h)
    · intro r hr hx
      rw [preT_eq]
      exact List.mem_cons_of_mem _ ((mem_detachF i kids x).2 r hr hx)
theorem mem_detachF (i : Nat) : ∀ (l : List STree) (x : SData),
    (x ∈ preF (detachF i l).1 → x ∈ preF l) ∧
    (∀ r, (detachF i l).2 = some r → x ∈ preT r → x ∈ preF l)
  | [], x => by
    constructor
    · intro hx; cases hx
    · intro r hr; cases hr
  | .mk d kids :: ts, x => by
    unfold detachF
    split
    · constructor
      · intro hx
        rw [preF_cons]
        exact List.mem_append_right _ hx
      · intro r hr hx
        rw [preF_cons]
        cases hr
        exact List.mem_append_left _ hx
    · split
      · next t2 r heq =>
        constructor
        · intro hx
          rw [preF_cons] at hx ⊢
          rcases List.mem_append.mp hx with h | h
          · refine List.mem_append_left _ ((mem_detachT i (.mk d kids) x).1 ?_)
            rw [heq]
            exact h
          · exact List.mem_append_right _ h
        · intro r2 hr2 hx
          rw [preF_cons]
          cases hr2
          refine List.mem_append_left _ ((mem_detachT i (.mk d kids) x).2 _ ?_ hx)
          rw [heq]
      · next t2 heq =>
        rw [show (match detachF i ts with
            | (ts2, r) => ((STree.mk d kids :: ts2 : List STree), r)) =
            ((STree.mk d kids :: (detachF i ts).1, (detachF i ts).2) :
              List STree × Option STree) from rfl]
        constructor
        · intro hx
          rw [preF_cons] at hx ⊢
          rcases List.mem_append.mp hx with h | h
          · exact List.mem_append_left _ h
          · exact List.mem_append_right _ ((mem_detachF i ts x).1 h)
        · intro r hr hx
          rw [preF_cons]
          exact List.mem_append_right _ ((mem_detachF i ts x).2 r hr hx)
end

mutual
theorem preT_updDataT (i : Nat) (f : SData → SData) : ∀ t : STree,
    preT (updDataT i f t) = (preT t).map (fun d => if d.idx = i then f d else d)
  | .mk d kids => by
    rw [show updDataT i f (.mk d kids) =
        .mk (if d.idx = i then f d else d) (updDataF i f kids) from rfl,
      preT_eq, preT_eq, List.map_cons, preF_updDataF i f kids]
theorem preF_updDataF (i : Nat) (f : SData → SData) : ∀ l : List STree,
    preF (updDataF i f l) = (preF l).map (fun d => if d.idx = i then f d else d)
  | [] => rfl
  | t :: ts => by
    rw [show updDataF i f (t :: ts) = updDataT i f t :: updDataF i f ts from rfl,
      preF_cons, preF_cons, List.map_append, preT_updDataT i f t, preF_updDataF i f ts]
end

theorem clsPairs_assert (s : ShadowDom) (c : Bool) (a b : String) :
    (s.assert c a b).clsPairs = s.clsPairs := by
  unfold ShadowDom.assert
  split <;> rfl

theorem clsPairs_of_forests {s s' : ShadowDom} (nw : STree)
    (hroot : ∀ x ∈ preF s'.root, (x ∈ preF s.root ∨ x ∈ preF s.removedKids) ∨ x ∈ preT nw)
    (hrk : ∀ x ∈ preF s'.removedKids,
      (x ∈ preF s.root ∨ x ∈ preF s.removedKids) ∨ x ∈ preT nw)
    (hnw : ∀ x ∈ preT nw, x.cls = Classes.nil) :
    ∀ pr ∈ s'.clsPairs, pr ∈ s.clsPairs ∨ pr.2 = Classes.nil := by
  intro pr hpr
  simp only [ShadowDom.clsPairs, List.mem_map, List.mem_append] at hpr
  obtain ⟨d, hd, rfl⟩ := hpr
  have hcase : (d ∈ preF s.root ∨ d ∈ preF s.removedKids) ∨ d ∈ preT nw := by
    rcases hd with hd | hd
    · exact hroot d hd
    · exact hrk d hd
  rcases hcase with h | h
  · left
    simp only [ShadowDom.clsPairs, List.mem_map, List.mem_append]
    exact ⟨d, h, rfl⟩
  · exact Or.inr (hnw d h)

theorem clsPairs_of_forests_sub {s s' : ShadowDom}
    (hroot : ∀ x ∈ preF s'.root, x ∈ preF s.root ∨ x ∈ preF s.removedKids)
    (hrk : ∀ x ∈ preF s'.removedKids, x ∈ preF s.root ∨ x ∈ preF s.removedKids) :
    ∀ pr ∈ s'.clsPairs, pr ∈ s.clsPairs := by
  intro pr hpr
  simp only [ShadowDom.clsPairs, List.mem_map, List.mem_append] at hpr
  obtain ⟨d, hd, rfl⟩ := hpr
  simp only [ShadowDom.clsPairs, List.mem_map, List.mem_append]
  rcases hd with hd | hd
  · exact ⟨d, hroot d hd, rfl⟩
  · exact ⟨d, hrk d hd, rfl⟩

theorem clsPairs_moveSurgery (s : ShadowDom) (i p : Nat) (anchor : Option Nat) :
    ∀ pr ∈ (s.moveSurgery i p anchor).clsPairs, pr ∈ s.clsPairs := by
  unfold ShadowDom.moveSurgery
  split
  · next root2 sub heq =>
    refine clsPairs_of_forests_sub ?_ ?_
    · intro x hx
      rcases mem_preF_insF p sub anchor root2 x hx with h | h
      · refine Or.inl ((mem_detachF i s.root x).1 ?_)
        rw [heq]
        exact h
      · refine Or.inl ((mem_detachF i s.root x).2 sub ?_ h)
        rw [heq]
    · intro x hx
      rcases mem_preF_insF p sub anchor s.removedKids x hx with h | h
      · exact Or.inr h
      · refine Or.inl ((mem_detachF i s.root x).2 sub ?_ h)
        rw [heq]
  · split
    · split
      · next rk2 sub heq =>
        refine clsPairs_of_forests_sub ?_ ?_
        · intro x hx
          rcases mem_preF_insF p sub anchor s.root x hx with h | h
          · exact Or.inl h
          · refine Or.inr ((mem_detachF i s.removedKids x).2 sub ?_ h)
            rw [heq]
        · intro x hx
          rcases mem_preF_insF p sub anchor rk2 x hx with h | h
          · refine Or.inr ((mem_detachF i s.removedKids x).1 ?_)
            rw [heq]
            exact h
          · refine Or.inr ((mem_detachF i s.removedKids x).2 sub ?_ h)
            rw [heq]
      · exact fun pr hpr => hpr
    · exact fun pr hpr => hpr

theorem clsPairs_moveShadowNode (s : ShadowDom) (i p n : Option Nat)
    (hoff : s.classifyNodes = false) :
    ∀ pr ∈ (s.moveShadowNode i p n).clsPairs, pr ∈ s.clsPairs := by
  unfold ShadowDom.moveShadowNode
  dsimp only
  split
  · next pp sn =>
    rw [if_neg (by simp [hoff])]
    intro pr hpr
    have h1 := clsPairs_moveSurgery _ _ _ _ pr hpr
    rw [clsPairs_assert, clsPairs_assert] at h1
    exact h1
  · intro pr hpr
    rw [clsPairs_assert, clsPairs_assert] at hpr
    exact hpr

theorem clsPairs_updData_preserve (s : ShadowDom) (i : Nat) (f : SData → SData)
    (hf : ∀ d, (f d).idx = d.idx ∧ (f d).cls = d.cls) :
    (s.updData i f).clsPairs = s.clsPairs := by
  unfold ShadowDom.clsPairs ShadowDom.updData
  dsimp only
  rw [preF_updDataF i f s.root, preF_updDataF i f s.removedKids, ← List.map_append,
    List.map_map]
  refine List.map_congr_left ?_
  intro d hd
  by_cases h : d.idx = i
  · simp only [Function.comp, if_pos h, Prod.mk.injEq]
    exact ⟨by rw [(hf d).1], by rw [(hf d).2]⟩
  · simp only [Function.comp, if_neg h]

theorem clsPairs_updateShadowNode (s : ShadowDom) (i : Option Nat) (l : Option LayoutState)
    (hoff : s.classifyNodes = false) :
    (s.updateShadowNode i l).clsPairs = s.clsPairs := by
  unfold ShadowDom.updateShadowNode
  dsimp only
  split
  · exact clsPairs_assert s _ _ _
  · next sn heq =>
    rcases l with _ | l2
    · rw [if_neg (by simp [hoff])]
      exact clsPairs_assert s _ _ _
    · rw [if_neg (by simp [ShadowDom.updData, hoff])]
      rw [clsPairs_updData_preserve
          (s.assert (s.getShadowNode i).isSome "updateShadowNode" "shadowNode is missing")
          sn.rootIdx
          (fun d => { d with layout := some l2, ignore := l2.tag = IgnoreTag })
          (fun d => ⟨rfl, rfl⟩),
        clsPairs_assert]

theorem setNodeIndex_snd_root (s : ShadowDom) (v : NodeId) :
    ((s.setNodeIndex v).2).root = s.root := by
  unfold ShadowDom.setNodeIndex
  cases lookupReg s.registry v <;> rfl

theorem setNodeIndex_snd_removedKids (s : ShadowDom) (v : NodeId) :
    ((s.setNodeIndex v).2).removedKids = s.removedKids := by
  unfold ShadowDom.setNodeIndex
  cases lookupReg s.registry v <;> rfl

theorem setNodeIndex_snd_classifyNodes (s : ShadowDom) (v : NodeId) :
    ((s.setNodeIndex v).2).classifyNodes = s.classifyNodes := by
  unfold ShadowDom.setNodeIndex
  cases lookupReg s.registry v <;> rfl

theorem clsPairs_setNodeIndex (s : ShadowDom) (v : NodeId) :
    ((s.setNodeIndex v).2).clsPairs = s.clsPairs := by
  unfold ShadowDom.setNodeIndex
  cases lookupReg s.registry v <;> rfl

theorem clsPairs_update_rootKid {s : ShadowDom} (nw : STree) (anchor : Option Nat)
    (hnw : ∀ x ∈ preT nw, x.cls = Classes.nil)
    (a1 : Nat) (r1 : List (NodeId × Nat)) (ra : Bool) (sd : Option Nat) (cn : Bool)
    (rp : List String) :
    ∀ pr ∈ (ShadowDom.mk a1 r1 (insertKid nw anchor s.root) s.removedKids ra sd cn
      rp).clsPairs, pr ∈ s.clsPairs ∨ pr.2 = Classes.nil := by
  refine clsPairs_of_forests nw ?_ ?_ hnw
  · intro x hx
    rcases mem_preF_insertKid nw anchor s.root x hx with h | h
    · exact Or.inl (Or.inl h)
    · exact Or.inr h
  · intro x hx
    exact Or.inl (Or.inr hx)

theorem clsPairs_update_insF {s : ShadowDom} (q : Nat) (nw : STree) (anchor : Option Nat)
    (hnw : ∀ x ∈ preT nw, x.cls = Classes.nil)
    (a1 : Nat) (r1 : List (NodeId × Nat)) (ra : Bool) (sd : Option Nat) (cn : Bool)
    (rp : List String) :
    ∀ pr ∈ (ShadowDom.mk a1 r1 (insF q nw anchor s.root) (insF q nw anchor s.removedKids)
      ra sd cn rp).clsPairs, pr ∈ s.clsPairs ∨ pr.2 = Classes.nil := by
  refine clsPairs_of_forests nw ?_ ?_ hnw
  · intro x hx
    rcases mem_preF_insF q nw anchor s.root x hx with h | h
    · exact Or.inl (Or.inl h)
    · exact Or.inr h
  · intro x hx
    rcases mem_preF_insF q nw anchor s.removedKids x hx with h | h
    · exact Or.inl (Or.inr h)
    · exact Or.inr h

theorem clsPairs_insertShadowNode (s : ShadowDom) (v : NodeId) (p n : Option Nat)
    (lay : Option LayoutState) (hoff : s.classifyNodes = false) :
    ∀ pr ∈ ((s.insertShadowNode v p n lay).2).clsPairs, pr ∈ s.clsPairs ∨ pr.2 = Classes.nil := by
  unfold ShadowDom.insertShadowNode
  dsimp only
  intro pr hpr
  by_cases hdoc : v = documentId
  · simp only [if_pos hdoc, ShadowDom.assert, Option.isSome_some, if_true] at hpr
    simp only [setNodeIndex_snd_root, setNodeIndex_snd_removedKids,
      setNodeIndex_snd_classifyNodes, hoff, Bool.false_eq_true, if_false] at hpr
    refine clsPairs_update_rootKid _ _ ?_ _ _ _ _ _ _ pr hpr
    intro x hx
    rw [preT_eq, preF_nil] at hx
    rcases List.mem_singleton.mp hx with rfl
    rfl
  · simp only [if_neg hdoc] at hpr
    split at hpr
    · next heqp =>
      rw [heqp] at hpr
      simp only [Option.isSome_none, Bool.false_eq_true, if_false, ShadowDom.assert] at hpr
      simp only [setNodeIndex_snd_root, setNodeIndex_snd_removedKids] at hpr
      exact Or.inl hpr
    · next pref heqp =>
      rw [heqp] at hpr
      simp only [Option.isSome_some, if_true, ShadowDom.assert] at hpr
      cases pref with
      | none =>
        exfalso
        cases hg : ((s.setNodeIndex v).2).getShadowNode p with
        | none =>
          rw [hg] at heqp
          cases heqp
        | some t =>
          rw [hg] at heqp
          cases heqp
      | some t =>
        simp only [setNodeIndex_snd_root, setNodeIndex_snd_removedKids,
          setNodeIndex_snd_classifyNodes, hoff, Bool.false_eq_true, if_false] at hpr
        refine clsPairs_update_insF _ _ _ ?_ _ _ _ _ _ _ pr hpr
        intro x hx
        rw [preT_eq, preF_nil] at hx
        rcases List.mem_singleton.mp hx with rfl
        rfl


theorem moveSurgery_classifyNodes (s : ShadowDom) (i p : Nat) (anchor : Option Nat) :
    (s.moveSurgery i p anchor).classifyNodes = s.classifyNodes := by
  unfold ShadowDom.moveSurgery
  repeat' split
  all_goals rfl

theorem moveShadowNode_classifyNodes (s : ShadowDom) (i p n : Option Nat) :
    (s.moveShadowNode i p n).classifyNodes = s.classifyNodes := by
  unfold ShadowDom.moveShadowNode
  dsimp only
  repeat' split
  all_goals simp [moveSurgery_classifyNodes, ShadowDom.updClsAt]

theorem updateShadowNode_classifyNodes (s : ShadowDom) (i : Option Nat)
    (l : Option LayoutState) :
    (s.updateShadowNode i l).classifyNodes = s.classifyNodes := by
  unfold ShadowDom.updateShadowNode
  dsimp only
  repeat' split
  all_goals simp [ShadowDom.updClsAt]

theorem insertShadowNode_snd_classifyNodes (s : ShadowDom) (v : NodeId) (p n : Option Nat)
    (lay : Option LayoutState) :
    ((s.insertShadowNode v p n lay).2).classifyNodes = s.classifyNodes := by
  unfold ShadowDom.insertShadowNode
  dsimp only
  repeat' split
  all_goals simp [setNodeIndex_snd_classifyNodes]

/-- C10: classification tags are attached only while a batch is in flight.
The freshly constructed engine has classifyNodes false, and applyMutationBatch
always returns with classifyNodes false (it is true only between the start
and end of the batch body). A public structural operation invoked while the
flag is off keeps the flag off, and every mirror node of the resulting
instance either already existed with the same index and classes or carries
the empty class list, so direct operations leave no transient tags; and a
state whose mirror nodes all carry empty class lists with an empty holding
area yields a summary with all four lists empty, so such operations
contribute no entries to any later summary. -/
theorem C10_classification_gated_by_batch (s : ShadowDom) (o : DirectOp)
    (hoff : s.classifyNodes = false) :
    ShadowDom.init.classifyNodes = false ∧
    (∀ (w : LiveWorld) (ms : List MRecord),
      ((s.applyMutationBatch w ms).1).classifyNodes = false) ∧
    (s.applyDirectOp o).classifyNodes = false ∧
    (∀ pr ∈ (s.applyDirectOp o).clsPairs, pr ∈ s.clsPairs ∨ pr.2 = Classes.nil) ∧
    ((∀ pr ∈ s.clsPairs, pr.2 = Classes.nil) → s.removedKids = [] →
      (s.getMutationSummary).1.newNodes = [] ∧
      (s.getMutationSummary).1.movedNodes = [] ∧
      (s.getMutationSummary).1.updatedNodes = [] ∧
      (s.getMutationSummary).1.removedNodes = []) := by
  refine ⟨rfl, fun w ms => rfl, ?_, ?_, ?_⟩
  · cases o with
    | ins v pp nn l =>
      rw [show ShadowDom.applyDirectOp s (.ins v pp nn l) =
        (s.insertShadowNode v pp nn l).2 from rfl, insertShadowNode_snd_classifyNodes]
      exact hoff
    | mov i pp nn =>
      rw [show ShadowDom.applyDirectOp s (.mov i pp nn) =
        s.moveShadowNode i pp nn from rfl, moveShadowNode_classifyNodes]
      exact hoff
    | upd i l =>
      rw [show ShadowDom.applyDirectOp s (.upd i l) =
        s.updateShadowNode i l from rfl, updateShadowNode_classifyNodes]
      exact hoff
  · cases o with
    | ins v pp nn l =>
      exact clsPairs_insertShadowNode s v pp nn l hoff
    | mov i pp nn =>
      exact fun pr hpr => Or.inl (clsPairs_moveShadowNode s i pp nn hoff pr hpr)
    | upd i l =>
      intro pr hpr
      rw [show ShadowDom.applyDirectOp s (.upd i l) = s.updateShadowNode i l from rfl,
        clsPairs_updateShadowNode s i l hoff] at hpr
      exact Or.inl hpr
  · intro hnil hrk
    have hall : ∀ d ∈ preF s.root, d.cls = Classes.nil := by
      intro d hd
      exact hnil (d.idx, d.cls) (by
        simp only [ShadowDom.clsPairs, List.mem_map, List.mem_append]
        exact ⟨d, Or.inl hd, rfl⟩)
    obtain ⟨hN, hM, hU, hR⟩ := summary_lists s
    have hfilN : (preF s.root).filter (fun d => d.cls.clNew) = [] := by
      rw [List.filter_eq_nil_iff]
      intro d hd
      rw [hall d hd]
      simp [Classes.nil]
    have hfilM : (preF s.root).filter (fun d => d.cls.clMoved) = [] := by
      rw [List.filter_eq_nil_iff]
      intro d hd
      rw [hall d hd]
      simp [Classes.nil]
    have hfilU : (preF s.root).filter (fun d => d.cls.clUpdated && !d.cls.clMoved) = [] := by
      rw [List.filter_eq_nil_iff]
      intro d hd
      rw [hall d hd]
      simp [Classes.nil]
    refine ⟨?_, ?_, ?_, ?_⟩
    · rw [hfilN] at hN
      exact hN.eq_nil
    · rw [hfilM] at hM
      simp only [List.map_nil, List.map_eq_nil] at hM
      exact hM
    · rw [hfilU] at hU
      simp only [List.map_nil, List.map_eq_nil] at hU
      exact hU
    · rw [hR, hrk]
      rfl


/-- C10 witness: the gate theorem at the base state with a direct move of
A(2) under B(3). -/
theorem C10_witness :
    ShadowDom.init.classifyNodes = false ∧
    (∀ (w : LiveWorld) (ms : List MRecord),
      ((exBase.applyMutationBatch w ms).1).classifyNodes = false) ∧
    (exBase.applyDirectOp (.mov (some 2) (some 3) none)).classifyNodes = false ∧
    (∀ pr ∈ (exBase.applyDirectOp (.mov (some 2) (some 3) none)).clsPairs,
      pr ∈ exBase.clsPairs ∨ pr.2 = Classes.nil) ∧
    ((∀ pr ∈ exBase.clsPairs, pr.2 = Classes.nil) → exBase.removedKids = [] →
      (exBase.getMutationSummary).1.newNodes = [] ∧
      (exBase.getMutationSummary).1.movedNodes = [] ∧
      (exBase.getMutationSummary).1.updatedNodes = [] ∧
      (exBase.getMutationSummary).1.removedNodes = []) :=
  C10_classification_gated_by_batch exBase (.mov (some 2) (some 3) none) rfl


/-- One fresh-insert step of applyInsert, with the insert result and the
cl-final update pinned by hypotheses so concrete runs can be stepped
state by state. -/
theorem applyInsert_fresh_step (s : ShadowDom) (v : NodeId) (kids : List LTree)
    (target : NodeId) (next : Option NodeId) (force : Bool) (i : Nat) (s1 s2 : ShadowDom)
    (hvalid : (s.shouldProcessChildListMutation v target || force) = true)
    (hfresh : s.getNodeIndex (some v) = none)
    (hins : s.insertShadowNode v (s.getNodeIndex (some target)) (s.getNodeIndex next) none =
      (some i, s1))
    (hupd : s1.updClsAt i (fun c => { c with clFinal := true }) = s2) :
    ShadowDom.applyInsert s (.mk v kids) target next force =
      ShadowDom.applyInsertKids s2 kids v := by
  unfold ShadowDom.applyInsert
  dsimp only
  rw [if_pos hvalid, hfresh]
  dsimp only
  rw [hins]
  dsimp only
  rw [hupd]

theorem exC3mid_eq : exBase.midBatch exLiveC3 exBatchC3 = exC3mid := by
  show ShadowDom.applyInsert { exBase with removedAttached := true, classifyNodes := true }
      (exLiveC3.subtreeOf 10) 1 none false = exC3mid
  rw [show exLiveC3.subtreeOf 10 = .mk 10 [.mk 11 [], .mk 13 []] from rfl]
  rw [applyInsert_fresh_step
    ({ exBase with removedAttached := true, classifyNodes := true } : ShadowDom)
    10 [.mk 11 [], .mk 13 []] 1 none false 4
    (⟨5, [(10, 4), (0, 0), (1, 1), (2, 2), (3, 3)], [.mk ⟨0, 0, none, false, ⟨false, false, false, false, false⟩⟩ [.mk ⟨1, 1, none, false, ⟨false, false, false, false, false⟩⟩ [.mk ⟨2, 2, none, false, ⟨false, false, false, false, false⟩⟩ [], .mk ⟨3, 3, none, false, ⟨false, false, false, false, false⟩⟩ [], .mk ⟨4, 10, none, false, ⟨false, true, true, false, false⟩⟩ []]]], [], true, some 0, true, []⟩ : ShadowDom)
    (⟨5, [(10, 4), (0, 0), (1, 1), (2, 2), (3, 3)], [.mk ⟨0, 0, none, false, ⟨false, false, false, false, false⟩⟩ [.mk ⟨1, 1, none, false, ⟨false, false, false, false, false⟩⟩ [.mk ⟨2, 2, none, false, ⟨false, false, false, false, false⟩⟩ [], .mk ⟨3, 3, none, false, ⟨false, false, false, false, false⟩⟩ [], .mk ⟨4, 10, none, false, ⟨true, true, true, false, false⟩⟩ []]]], [], true, some 0, true, []⟩ : ShadowDom)
    (by decide) rfl rfl rfl]
  rw [show ShadowDom.applyInsertKids (⟨5, [(10, 4), (0, 0), (1, 1), (2, 2), (3, 3)], [.mk ⟨0, 0, none, false, ⟨false, false, false, false, false⟩⟩ [.mk ⟨1, 1, none, false, ⟨false, false, false, false, false⟩⟩ [.mk ⟨2, 2, none, false, ⟨false, false, false, false, false⟩⟩ [], .mk ⟨3, 3, none, false, ⟨false, false, false, false, false⟩⟩ [], .mk ⟨4, 10, none, false, ⟨true, true, true, false, false⟩⟩ []]]], [], true, some 0, true, []⟩ : ShadowDom) [.mk 11 [], .mk 13 []] 10 =
      ShadowDom.applyInsert
        (ShadowDom.applyInsert (⟨5, [(10, 4), (0, 0), (1, 1), (2, 2), (3, 3)], [.mk ⟨0, 0, none, false, ⟨false, false, false, false, false⟩⟩ [.mk ⟨1, 1, none, false, ⟨false, false, false, false, false⟩⟩ [.mk ⟨2, 2, none, false, ⟨false, false, false, false, false⟩⟩ [], .mk ⟨3, 3, none, false, ⟨false, false, false, false, false⟩⟩ [], .mk ⟨4, 10, none, false, ⟨true, true, true, false, false⟩⟩ []]]], [], true, some 0, true, []⟩ : ShadowDom) (.mk 13 []) 10 none true)
        (.mk 11 []) 10 (some 13) true from rfl]
  rw [applyInsert_fresh_step (⟨5, [(10, 4), (0, 0), (1, 1), (2, 2), (3, 3)], [.mk ⟨0, 0, none, false, ⟨false, false, false, false, false⟩⟩ [.mk ⟨1, 1, none, false, ⟨false, false, false, false, false⟩⟩ [.mk ⟨2, 2, none, false, ⟨false, false, false, false, false⟩⟩ [], .mk ⟨3, 3, none, false, ⟨false, false, false, false, false⟩⟩ [], .mk ⟨4, 10, none, false, ⟨true, true, true, false, false⟩⟩ []]]], [], true, some 0, true, []⟩ : ShadowDom) 13 [] 10 none true 5
    (⟨6, [(13, 5), (10, 4), (0, 0), (1, 1), (2, 2), (3, 3)], [.mk ⟨0, 0, none, false, ⟨false, false, false, false, false⟩⟩ [.mk ⟨1, 1, none, false, ⟨false, false, false, false, false⟩⟩ [.mk ⟨2, 2, none, false, ⟨false, false, false, false, false⟩⟩ [], .mk ⟨3, 3, none, false, ⟨false, false, false, false, false⟩⟩ [], .mk ⟨4, 10, none, false, ⟨true, true, true, false, false⟩⟩ [.mk ⟨5, 13, none, false, ⟨false, true, false, false, false⟩⟩ []]]]], [], true, some 0, true, []⟩ : ShadowDom)
    (⟨6, [(13, 5), (10, 4), (0, 0), (1, 1), (2, 2), (3, 3)], [.mk ⟨0, 0, none, false, ⟨false, false, false, false, false⟩⟩ [.mk ⟨1, 1, none, false, ⟨false, false, false, false, false⟩⟩ [.mk ⟨2, 2, none, false, ⟨false, false, false, false, false⟩⟩ [], .mk ⟨3, 3, none, false, ⟨false, false, false, false, false⟩⟩ [], .mk ⟨4, 10, none, false, ⟨true, true, true, false, false⟩⟩ [.mk ⟨5, 13, none, false, ⟨true, true, false, false, false⟩⟩ []]]]], [], true, some 0, true, []⟩ : ShadowDom)
    (by decide) rfl rfl rfl]
  rw [show ShadowDom.applyInsertKids (⟨6, [(13, 5), (10, 4), (0, 0), (1, 1), (2, 2), (3, 3)], [.mk ⟨0, 0, none, false, ⟨false, false, false, false, false⟩⟩ [.mk ⟨1, 1, none, false, ⟨false, false, false, false, false⟩⟩ [.mk ⟨2, 2, none, false, ⟨false, false, false, false, false⟩⟩ [], .mk ⟨3, 3, none, false, ⟨false, false, false, false, false⟩⟩ [], .mk ⟨4, 10, none, false, ⟨true, true, true, false, false⟩⟩ [.mk ⟨5, 13, none, false, ⟨true, true, false, false, false⟩⟩ []]]]], [], true, some 0, true, []⟩ : ShadowDom) [] 13 = (⟨6, [(13, 5), (10, 4), (0, 0), (1, 1), (2, 2), (3, 3)], [.mk ⟨0, 0, none, false, ⟨false, false, false, false, false⟩⟩ [.mk ⟨1, 1, none, false, ⟨false, false, false, false, false⟩⟩ [.mk ⟨2, 2, none, false, ⟨false, false, false, false, false⟩⟩ [], .mk ⟨3, 3, none, false, ⟨false, false, false, false, false⟩⟩ [], .mk ⟨4, 10, none, false, ⟨true, true, true, false, false⟩⟩ [.mk ⟨5, 13, none, false, ⟨true, true, false, false, false⟩⟩ []]]]], [], true, some 0, true, []⟩ : ShadowDom) from rfl]
  rw [applyInsert_fresh_step (⟨6, [(13, 5), (10, 4), (0, 0), (1, 1), (2, 2), (3, 3)], [.mk ⟨0, 0, none, false, ⟨false, false, false, false, false⟩⟩ [.mk ⟨1, 1, none, false, ⟨false, false, false, false, false⟩⟩ [.mk ⟨2, 2, none, false, ⟨false, false, false, false, false⟩⟩ [], .mk ⟨3, 3, none, false, ⟨false, false, false, false, false⟩⟩ [], .mk ⟨4, 10, none, false, ⟨true, true, true, false, false⟩⟩ [.mk ⟨5, 13, none, false, ⟨true, true, false, false, false⟩⟩ []]]]], [], true, some 0, true, []⟩ : ShadowDom) 11 [] 10 (some 13) true 6
    (⟨7, [(11, 6), (13, 5), (10, 4), (0, 0), (1, 1), (2, 2), (3, 3)], [.mk ⟨0, 0, none, false, ⟨false, false, false, false, false⟩⟩ [.mk ⟨1, 1, none, false, ⟨false, false, false, false, false⟩⟩ [.mk ⟨2, 2, none, false, ⟨false, false, false, false, false⟩⟩ [], .mk ⟨3, 3, none, false, ⟨false, false, false, false, false⟩⟩ [], .mk ⟨4, 10, none, false, ⟨true, true, true, false, false⟩⟩ [.mk ⟨6, 11, none, false, ⟨false, true, false, false, false⟩⟩ [], .mk ⟨5, 13, none, false, ⟨true, true, false, false, false⟩⟩ []]]]], [], true, some 0, true, []⟩ : ShadowDom)
    exC3mid
    (by decide) rfl rfl rfl]
  rfl

theorem C3_counterexample :
    ((exBase.applyMutationBatch exLiveC3 exBatchC3).2.newNodes).map (fun d => d.idx) =
      [4, 5, 6] ∧
    (dfsNewSpecF (exBase.midBatch exLiveC3 exBatchC3).root).map (fun d => d.idx) =
      [4, 6, 5] := by
  constructor
  · rw [applyMutationBatch_snd, exC3mid_eq]
    decide
  · rw [exC3mid_eq]
    decide

theorem subT_data_mem : ∀ {u t : STree}, SubT u t → u.data ∈ preT t := by
  intro u t h
  induction h with
  | refl =>
    cases u with
    | mk d kids =>
      rw [preT_eq]
      exact List.mem_cons_self _ _
  | @kid k d kids hk hsub ih =>
    rw [preT_eq]
    exact List.mem_cons_of_mem _ (preT_sub_of_mem kids k hk _ ih)

theorem reachT_self_mem : ∀ {t : STree}, t.data.cls.clNew = true → t.data ∈ reachT t := by
  intro t h
  cases t with
  | mk d kids =>
    rw [reachT_eq, if_pos (show d.cls.clNew = true from h)]
    exact List.mem_cons_self _ _

theorem mem_reachF_of_mem : ∀ (l : List STree) (t : STree), t ∈ l →
    ∀ x ∈ reachT t, x ∈ reachF l
  | u :: us, t, ht, x, hx => by
    rw [reachF_cons]
    rcases List.mem_cons.mp ht with rfl | h
    · exact List.mem_append_left _ hx
    · exact List.mem_append_right _ (mem_reachF_of_mem us t h x hx)

theorem newReach_new : ∀ {t u : STree}, NewReach t u → t.data.cls.clNew = true := by
  intro t u h
  cases h with
  | refl _ h2 => exact h2
  | step k h2 hk hr => exact h2

/-- Breadth-first precedence: whenever a queue element reaches (along
cl-new paths) a node one of whose children is still cl-new, the discovery
walk appends that node before the child. -/
theorem bfs_prec : ∀ (fuel : Nat) (q : List STree), sizeF q < fuel →
    ∀ t ∈ q, ∀ (ta tx : STree), NewReach t ta → tx ∈ ta.kids →
    tx.data.cls.clNew = true →
    [ta.data, tx.data].Sublist (bfsNew fuel q)
  | 0, q, h => by
    intro t ht ta tx h1 h2 h3
    exact absurd h (Nat.not_lt_zero _)
  | fuel + 1, [], h => by
    intro t ht
    exact absurd ht (List.not_mem_nil t)
  | fuel + 1, .mk d kids :: q', h => by
    intro t ht ta tx hreach hkid hxnew
    rw [bfsNew_cons]
    rcases List.mem_cons.mp ht with rfl | ht'
    · have hd : d.cls.clNew = true := newReach_new hreach
      rw [if_pos hd]
      have hsz : sizeF (q' ++ kids.reverse) < fuel := by
        rw [sizeF_append, sizeF_reverse]
        rw [sizeF_cons, sizeT_eq] at h
        omega
      cases hreach with
      | refl hh =>
        show (d :: [tx.data]).Sublist (d :: bfsNew fuel (q' ++ kids.reverse))
        refine List.Sublist.cons₂ _ ?_
        rw [List.singleton_sublist, (bfsNew_perm fuel _ hsz).mem_iff, reachF_append]
        refine List.mem_append_right _ ?_
        rw [(reachF_reverse_perm kids).mem_iff]
        exact mem_reachF_of_mem kids tx hkid tx.data (reachT_self_mem hxnew)
      | step k hnew2 hk2 hreach2 =>
        refine List.Sublist.cons _ ?_
        exact bfs_prec fuel (q' ++ kids.reverse) hsz k
          (List.mem_append_right _ (List.mem_reverse.mpr hk2)) ta tx hreach2 hkid hxnew
    · cases hdn : d.cls.clNew with
      | true =>
        rw [if_pos rfl]
        refine List.Sublist.cons _ ?_
        have hsz : sizeF (q' ++ kids.reverse) < fuel := by
          rw [sizeF_append, sizeF_reverse]
          rw [sizeF_cons, sizeT_eq] at h
          omega
        exact bfs_prec fuel (q' ++ kids.reverse) hsz t (List.mem_append_left _ ht')
          ta tx hreach hkid hxnew
      | false =>
        rw [if_neg (by simp)]
        have hsz : sizeF q' < fuel := by
          rw [sizeF_cons, sizeT_eq] at h
          omega
        exact bfs_prec fuel q' hsz t ht' ta tx hreach hkid hxnew

theorem mem_clearReachF_of_mem : ∀ (l : List STree) (u : STree), u ∈ l →
    clearReachT u ∈ clearReachF l
  | t :: ts, u, hu => by
    rw [clearReachF_cons]
    rcases List.mem_cons.mp hu with rfl | h
    · exact List.mem_cons_self _ _
    · exact List.mem_cons_of_mem _ (mem_clearReachF_of_mem ts u h)

/-- A cl-new node the discovery walk from k does not visit survives
clearReachT with its whole subtree intact. -/
theorem clearReach_pair {ta : STree} (hnew : ta.data.cls.clNew = true) :
    ∀ {k : STree}, SubT ta k → ¬ NewReach k ta → SubT ta (clearReachT k) := by
  intro k hsub
  induction hsub with
  | refl =>
    intro hno
    exact absurd (NewReach.refl ta hnew) hno
  | @kid k2 d kids hk hsub2 ih =>
    intro hno
    cases hdn : d.cls.clNew with
    | false =>
      rw [clearReachT_eq, if_neg (by simp [hdn])]
      exact SubT.kid hk hsub2
    | true =>
      rw [clearReachT_eq, if_pos hdn]
      refine SubT.kid (mem_clearReachF_of_mem kids k2 hk) (ih ?_)
      intro hcon
      exact hno (NewReach.step k2 hdn hk hcon)

mutual
/-- A cl-new node the current first-new walk does not reach survives one
outer iteration of the new-nodes loop with its whole subtree intact. -/
theorem clearFirstNewT_pair : ∀ (k ta : STree), SubT ta k →
    ta.data.cls.clNew = true →
    (∀ f0, findFirstNewT k = some f0 → ¬ NewReach f0 ta) →
    SubT ta (clearFirstNewT k)
  | .mk d kids, ta => by
    intro hsub hnew hno
    cases hdn : d.cls.clNew with
    | true =>
      rw [clearFirstNewT_eq, if_pos hdn]
      refine clearReach_pair hnew hsub (hno _ ?_)
      rw [findFirstNewT_eq, if_pos hdn]
    | false =>
      rw [clearFirstNewT_eq, if_neg (by simp [hdn])]
      cases hsub with
      | refl =>
        have h2 : d.cls.clNew = true := hnew
        rw [hdn] at h2
        exact absurd h2 (by decide)
      | kid hk hsub2 =>
        rename_i k2
        have hno2 : ∀ f0, findFirstNewF kids = some f0 → ¬ NewReach f0 ta := by
          intro f0 hf0
          refine hno f0 ?_
          rw [findFirstNewT_eq, if_neg (by simp [hdn])]
          exact hf0
        obtain ⟨u, hu, hsubu⟩ := clearFirstNewF_pair kids k2 ta hk hsub2 hnew hno2
        exact SubT.kid hu hsubu
theorem clearFirstNewF_pair : ∀ (l : List STree) (k2 ta : STree), k2 ∈ l → SubT ta k2 →
    ta.data.cls.clNew = true →
    (∀ f0, findFirstNewF l = some f0 → ¬ NewReach f0 ta) →
    ∃ u ∈ clearFirstNewF l, SubT ta u
  | [], k2, ta => by
    intro hk
    exact absurd hk (List.not_mem_nil _)
  | w :: ws, k2, ta => by
    intro hk hsub hnew hno
    rw [clearFirstNewF_cons]
    cases hw : hasPT (fun d => d.cls.clNew) w with
    | true =>
      rw [if_pos rfl]
      rcases List.mem_cons.mp hk with heq | hk2
      · have hnoT : ∀ f0, findFirstNewT w = some f0 → ¬ NewReach f0 ta := by
          intro f0 hf0
          refine hno f0 ?_
          rw [findFirstNewF_cons, hf0]
        have hsubw : SubT ta w := heq ▸ hsub
        exact ⟨clearFirstNewT w, List.mem_cons_self _ _,
          clearFirstNewT_pair w ta hsubw hnew hnoT⟩
      · exact ⟨k2, List.mem_cons_of_mem _ hk2, hsub⟩
    | false =>
      rw [if_neg (by simp)]
      rcases List.mem_cons.mp hk with heq | hk2
      · exact ⟨w, List.mem_cons_self _ _, heq ▸ hsub⟩
      · have hwnone : findFirstNewT w = none := by
          have h2 := findFirstNewT_isSome w
          rw [hw] at h2
          cases hfw : findFirstNewT w with
          | none => rfl
          | some r =>
            rw [hfw] at h2
            cases h2
        have hnoF : ∀ f0, findFirstNewF ws = some f0 → ¬ NewReach f0 ta := by
          intro f0 hf0
          refine hno f0 ?_
          rw [findFirstNewF_cons, hwnone]
          exact hf0
        obtain ⟨u, hu, hsubu⟩ := clearFirstNewF_pair ws k2 ta hk2 hsub hnew hnoF
        exact ⟨u, List.mem_cons_of_mem _ hu, hsubu⟩
end

mutual
theorem findFirst_data_T : ∀ t : STree,
    findFirstPT (fun d => d.cls.clNew) t = (findFirstNewT t).map STree.data
  | .mk d kids => by
    rw [findFirstNewT_eq,
      show findFirstPT (fun d => d.cls.clNew) (.mk d kids) =
        if d.cls.clNew then some d else findFirstPF (fun d => d.cls.clNew) kids from rfl]
    cases hdn : d.cls.clNew with
    | true => rfl
    | false =>
      rw [if_neg (by simp), if_neg (by simp)]
      exact findFirst_data_F kids
theorem findFirst_data_F : ∀ l : List STree,
    findFirstPF (fun d => d.cls.clNew) l = (findFirstNewF l).map STree.data
  | [] => rfl
  | t :: ts => by
    rw [findFirstNewF_cons,
      show findFirstPF (fun d => d.cls.clNew) (t :: ts) =
        (match findFirstPT (fun d => d.cls.clNew) t with
         | some r => some r
         | none => findFirstPF (fun d => d.cls.clNew) ts) from rfl,
      findFirst_data_T t]
    cases hft : findFirstNewT t with
    | some r => rfl
    | none =>
      exact findFirst_data_F ts
end

theorem newLoop_head : ∀ (fuel : Nat) (f : List STree), 0 < fuel →
    ((newLoop fuel f).1).head? = (preF f).find? (fun d => d.cls.clNew) := by
  intro fuel f hpos
  rw [← findFirstPF_eq_find, findFirst_data_F]
  cases fuel with
  | zero => exact absurd hpos (Nat.lt_irrefl 0)
  | succ n =>
    rw [newLoop_succ]
    cases hf : findFirstNewF f with
    | none => rfl
    | some sub =>
      cases sub with
      | mk d kids =>
        have hd : d.cls.clNew = true := findFirstNewF_root_new f _ hf
        dsimp only
        rw [bfsNew_cons, if_pos hd, List.cons_append]
        rfl

/-- The outer new-nodes loop lists a still-new node before each of its
still-new children. -/
theorem newLoop_prec : ∀ (fuel : Nat) (f : List STree),
    countPF (fun d => d.cls.clNew) f < fuel →
    ∀ t ∈ f, ∀ (ta tx : STree), SubT ta t → tx ∈ ta.kids →
    ta.data.cls.clNew = true → tx.data.cls.clNew = true →
    [ta.data, tx.data].Sublist (newLoop fuel f).1
  | 0, f, h => by
    intro t ht ta tx h1 h2 h3 h4
    exact absurd h (Nat.not_lt_zero _)
  | fuel + 1, f, h => by
    intro t ht ta tx hsub hkid hanew hxnew
    rw [newLoop_succ]
    cases hf : findFirstNewF f with
    | none =>
      exfalso
      have hmem : ta.data ∈ preF f := preT_sub_of_mem f t ht ta.data (subT_data_mem hsub)
      have hhas : hasPF (fun d => d.cls.clNew) f = true := by
        rw [hasPF_eq_any]
        exact List.any_eq_true.mpr ⟨ta.data, hmem, hanew⟩
      have h2 := findFirstNewF_isSome f
      rw [hf, hhas] at h2
      exact Bool.false_ne_true h2
    | some f0 =>
      dsimp only
      by_cases hnr : NewReach f0 ta
      · have hsz : sizeF [f0] < sizeT f0 + 1 := by
          rw [sizeF_cons, sizeF_nil]
          omega
        have hb := bfs_prec (sizeT f0 + 1) [f0] hsz f0 (List.mem_cons_self _ _)
          ta tx hnr hkid hxnew
        exact hb.trans (List.sublist_append_left _ _)
      · have hcount : countPF (fun d => d.cls.clNew) (clearFirstNewF f) < fuel := by
          have hlt := clearFirstNewF_count_lt hf
          omega
        have hno : ∀ f1, findFirstNewF f = some f1 → ¬ NewReach f1 ta := by
          intro f1 hf1
          rw [hf] at hf1
          cases hf1
          exact hnr
        obtain ⟨u, hu, hsubu⟩ := clearFirstNewF_pair f t ta ht hsub hanew hno
        have hrec := newLoop_prec fuel (clearFirstNewF f) hcount u hu ta tx hsubu
          hkid hanew hxnew
        exact hrec.trans (List.sublist_append_right _ _)

/-- C3 (amended): getMutationSummary builds the new-nodes list by
repeatedly taking the first remaining cl-new node in document order (not
a top-new tag in tagging order) and breadth-first traversing from it,
pushing children right to left and clearing cl-new as it goes, until no
cl-new node remains. Consequently the list is a permutation of the cl-new
nodes, its head is the document-order first cl-new node, and a cl-new
parent precedes each of its cl-new children; but within one walk the
order is breadth-first with children reversed, not depth-first
left-to-right as claimed (see the counterexample). -/
theorem C3_new_nodes_order (s : ShadowDom) (t ta tx : STree)
    (ht : t ∈ s.root) (hsub : SubT ta t) (hkid : tx ∈ ta.kids)
    (hanew : ta.data.cls.clNew = true) (hxnew : tx.data.cls.clNew = true) :
    ((s.getMutationSummary).1.newNodes).Perm
      ((preF s.root).filter (fun d => d.cls.clNew)) ∧
    ((s.getMutationSummary).1.newNodes).head? =
      (preF s.root).find? (fun d => d.cls.clNew) ∧
    [ta.data, tx.data].Sublist ((s.getMutationSummary).1.newNodes) := by
  obtain ⟨hN, -, -, -⟩ := summary_lists s
  refine ⟨hN, ?_, ?_⟩
  · rw [getMutationSummary_newNodes]
    exact newLoop_head _ s.root (Nat.succ_pos _)
  · rw [getMutationSummary_newNodes]
    exact newLoop_prec _ s.root (Nat.lt_succ_self _) t ht ta tx hsub hkid hanew hxnew

theorem C3_witness :
    ((exC3mid.getMutationSummary).1.newNodes).Perm
      ((preF exC3mid.root).filter (fun d => d.cls.clNew)) ∧
    ((exC3mid.getMutationSummary).1.newNodes).head? =
      (preF exC3mid.root).find? (fun d => d.cls.clNew) ∧
    [(⟨4, 10, none, false, ⟨true, true, true, false, false⟩⟩ : SData),
     ⟨6, 11, none, false, ⟨true, true, false, false, false⟩⟩].Sublist
      ((exC3mid.getMutationSummary).1.newNodes) :=
  C3_new_nodes_order exC3mid
    (.mk ⟨0, 0, none, false, ⟨false, false, false, false, false⟩⟩
      [.mk ⟨1, 1, none, false, ⟨false, false, false, false, false⟩⟩
        [.mk ⟨2, 2, none, false, ⟨false, false, false, false, false⟩⟩ [],
         .mk ⟨3, 3, none, false, ⟨false, false, false, false, false⟩⟩ [],
         .mk ⟨4, 10, none, false, ⟨true, true, true, false, false⟩⟩
           [.mk ⟨6, 11, none, false, ⟨true, true, false, false, false⟩⟩ [],
            .mk ⟨5, 13, none, false, ⟨true, true, false, false, false⟩⟩ []]]])
    (.mk ⟨4, 10, none, false, ⟨true, true, true, false, false⟩⟩
      [.mk ⟨6, 11, none, false, ⟨true, true, false, false, false⟩⟩ [],
       .mk ⟨5, 13, none, false, ⟨true, true, false, false, false⟩⟩ []])
    (.mk ⟨6, 11, none, false, ⟨true, true, false, false, false⟩⟩ [])
    (List.mem_cons_self _ _)
    (SubT.kid (List.mem_cons_self _ _)
      (SubT.kid
        (List.mem_cons_of_mem _ (List.mem_cons_of_mem _ (List.mem_cons_self _ _)))
        (SubT.refl _)))
    (List.mem_cons_self _ _)
    rfl rfl

end Clarity
